import Mathlib

/-!
Verification development for the Agent Workshop multi-agent execution and
event-streaming engine (backend/app/services/agent_workshop.py,
backend/app/models/workshop.py, backend/app/routers/workshop.py).

The embedding is shallow: the Python code's pure fragments become Lean
functions; the concurrent worker/consumer loop becomes a small-step machine
folded over an explicit schedule of producer actions (step notifications,
task-completion notifications, tool invocations) interleaved with consumer
polls; external collaborators (the DDGS search call, Python eval, the LLM
call, the CrewAI kickoff) become oracle parameters carrying either a value
or the message of the exception they raised.  Wall-clock readings
(`time.time()`) are modelled as integer instants supplied with each action;
`round(x, 1)` on a duration is modelled as the integer difference itself.
Python string slicing `s[:n]` is modelled by `pyTrunc` (take of the
code-point list).
-/

namespace AgentWorkshop

/-- Event types of the workshop event stream (models `EventType` in
backend/app/models/workshop.py). -/
inductive EventType where
  | agent_start
  | agent_thinking
  | tool_call
  | tool_result
  | handoff
  | agent_complete
  | crew_complete
  | error
deriving DecidableEq

/-- Metadata of an event: the open key/value map is modelled as a record of
the optional keys the source ever writes (`tool`, `input`, `action`, `key`,
`type` (as `mtype`), `duration_seconds`, `from`/`to` (as
`fromAgent`/`toAgent`), `execution_time_seconds`, `total_tool_calls`,
`agents_used`). -/
structure Metadata where
  tool : Option String := none
  input : Option String := none
  action : Option String := none
  key : Option String := none
  mtype : Option String := none
  duration_seconds : Option Int := none
  fromAgent : Option String := none
  toAgent : Option String := none
  execution_time_seconds : Option Int := none
  total_tool_calls : Option Nat := none
  agents_used : Option Nat := none
deriving DecidableEq

/-- Models `ExecutionEvent` in backend/app/models/workshop.py. -/
structure ExecutionEvent where
  type : EventType
  agent_name : String := ""
  content : String := ""
  timestamp : Int := 0
  metadata : Metadata := {}
deriving DecidableEq

/-- Python string slicing `s[:n]` (by code points). -/
def pyTrunc (s : String) (n : Nat) : String :=
  String.mk (s.data.take n)

/-- Python dict assignment `m[k] = v`: replace in place if the key exists,
else append (insertion order preserved, as in CPython dicts). -/
def dictSet {α : Type} (m : List (String × α)) (k : String) (v : α) :
    List (String × α) :=
  if m.any (fun p => decide (p.1 = k)) then
    m.map (fun p => if p.1 = k then (k, v) else p)
  else m ++ [(k, v)]

/-- Python `m.get(k)` / `k in m` on a dict. -/
def dictGet {α : Type} (m : List (String × α)) (k : String) : Option α :=
  (m.find? (fun p => decide (p.1 = k))).map (fun p => p.2)

/-- One result row returned by the DDGS text search. -/
structure SearchResult where
  title : String
  body : String
  href : String
deriving DecidableEq

/-- Outcome of the external `ddgs` call inside `WebSearchTool._run`: a result
list, or the message of the exception it raised. -/
inductive SearchOutcome where
  | results (rs : List SearchResult)
  | raises (e : String)
deriving DecidableEq

/-- Outcome of an external call returning a string (`eval` in the calculator,
`llm.call` in the text analyzer): a value, or the raised exception's message. -/
inductive ExtOutcome where
  | value (s : String)
  | raises (e : String)
deriving DecidableEq

/-- Models the numbered line built for each search result. -/
def searchLine (i : Nat) (r : SearchResult) : String :=
  toString i ++ ". " ++ r.title ++ "\n   " ++ r.body ++ "\n   URL: " ++ r.href

/-- Models `"\n\n".join(lines)`-style joining. -/
def joinSep (sep : String) : List String → String
  | [] => ""
  | [x] => x
  | x :: y :: rest => x ++ sep ++ joinSep sep (y :: rest)

/-- Models the formatting of a non-empty search result list in
`WebSearchTool._run`. -/
def formatSearchResults (rs : List SearchResult) : String :=
  joinSep "\n\n" (rs.enum.map (fun p => searchLine (p.1 + 1) p.2))

/-- The string computed in the body of `WebSearchTool._run` (the full,
untruncated tool output). -/
def webSearchOut (query : String) (o : SearchOutcome) : String :=
  match o with
  | .results [] => "No search results found for: " ++ query
  | .results (r :: rest) => formatSearchResults (r :: rest)
  | .raises e => "Search error: " ++ e

/-- Models `WebSearchTool._run`: the pair of events it publishes onto the
event channel (in publication order) and the string it returns. -/
def webSearchRun (now : Int) (query : String) (o : SearchOutcome) :
    List ExecutionEvent × String :=
  let out := webSearchOut query o
  ([{ type := .tool_call, content := "Searching: " ++ query, timestamp := now,
      metadata := { tool := some "web_search", input := some query } },
    { type := .tool_result, content := pyTrunc out 500, timestamp := now,
      metadata := { tool := some "web_search" } }],
   out)

/-- The result string computed in `CalculatorTool._run`. -/
def calculatorResultStr (o : ExtOutcome) : String :=
  match o with
  | .value s => s
  | .raises e => "Calculation error: " ++ e

/-- Models `CalculatorTool._run`.  Note: the `tool_result` content is the
result string itself, with no truncation (the source has `content=result`). -/
def calculatorRun (now : Int) (expression : String) (o : ExtOutcome) :
    List ExecutionEvent × String :=
  let result := calculatorResultStr o
  ([{ type := .tool_call, content := "Calculating: " ++ expression,
      timestamp := now,
      metadata := { tool := some "calculator", input := some expression } },
    { type := .tool_result, content := result, timestamp := now,
      metadata := { tool := some "calculator" } }],
   result)

/-- Models `NoteTakerTool._run`: events published, string returned, and the
updated process-wide notes store. -/
def noteTakerRun (now : Int) (action key content : String)
    (notes : List (String × String)) :
    List ExecutionEvent × String × List (String × String) :=
  let callEvt : ExecutionEvent :=
    { type := .tool_call,
      content := "Note: " ++ action ++ " \x27" ++ key ++ "\x27",
      timestamp := now,
      metadata := { tool := some "note_taker", action := some action,
                    key := some key } }
  let saved := action = "save"
  let notes2 := if saved then dictSet notes key content else notes
  let result :=
    if saved then "Saved note \x27" ++ key ++ "\x27"
    else (dictGet notes key).getD ("No note found for \x27" ++ key ++ "\x27")
  ([callEvt,
    { type := .tool_result, content := pyTrunc result 300, timestamp := now,
      metadata := { tool := some "note_taker" } }],
   result, notes2)

/-- The result string computed in `TextAnalyzerTool._run`. -/
def textAnalyzerResultStr (o : ExtOutcome) : String :=
  match o with
  | .value s => s
  | .raises e => "Analysis error: " ++ e

/-- Models `TextAnalyzerTool._run`. -/
def textAnalyzerRun (now : Int) (text analysisType : String) (o : ExtOutcome) :
    List ExecutionEvent × String :=
  let result := textAnalyzerResultStr o
  ([{ type := .tool_call,
      content := "Analyzing text (" ++ analysisType ++ "): "
        ++ pyTrunc text 100 ++ "...",
      timestamp := now,
      metadata := { tool := some "text_analyzer", mtype := some analysisType } },
    { type := .tool_result, content := pyTrunc result 500, timestamp := now,
      metadata := { tool := some "text_analyzer" } }],
   result)

/-- Models `AgentDefinition` (backend/app/models/workshop.py).  The `id` is
generated by `uuid4` in the source; the embedding takes it explicitly. -/
structure AgentDefinition where
  id : String
  name : String
  role : String
  goal : String
  backstory : String
  tools : List String := []
  order : Int := 0
deriving DecidableEq

/-- Models `TaskDefinition`. -/
structure TaskDefinition where
  id : String
  description : String
  agent_id : String
  expected_output : String
  order : Int := 0
deriving DecidableEq

/-- Models `CrewPlan`. -/
structure CrewPlan where
  agents : List AgentDefinition := []
  tasks : List TaskDefinition := []
  execution_order : String := "sequential"
  summary : String := ""
deriving DecidableEq

/-- Models `SessionStatus`. -/
inductive SessionStatus where
  | planning
  | running
  | complete
  | error
deriving DecidableEq

/-- Models `WorkshopSession`.  The repurposed `total_tokens` field stores the
tool-call count, as in the source. -/
structure WorkshopSession where
  id : String
  goal : String
  crew_plan : CrewPlan := {}
  events : List ExecutionEvent := []
  result : String := ""
  execution_time_seconds : Int := 0
  total_tokens : Nat := 0
  status : SessionStatus := .planning
  created_at : String := ""
deriving DecidableEq

/-- Models `MAX_SESSIONS` in backend/app/models/workshop.py. -/
def MAX_SESSIONS : Nat := 50

/-- Models `next((i for i, s in enumerate(sessions) if s.get("id") == session.id), None)`:
the first index whose element satisfies the predicate. -/
def pyNextIndex {α : Type} (p : α → Bool) : List α → Option Nat
  | [] => none
  | a :: rest => if p a then some 0 else (pyNextIndex p rest).map (fun i => i + 1)

/-- Models `save_session`: replace in place when a session with the same id
exists, else insert at the front; always truncate to `MAX_SESSIONS`.  The
stored list stands for the JSON file contents (`list_sessions`). -/
def save_session (stored : List WorkshopSession) (s : WorkshopSession) :
    List WorkshopSession :=
  match pyNextIndex (fun t => decide (t.id = s.id)) stored with
  | some i => (stored.set i s).take MAX_SESSIONS
  | none => (s :: stored).take MAX_SESSIONS

/-- Models `get_session`: first stored session with the given id. -/
def get_session (stored : List WorkshopSession) (sid : String) :
    Option WorkshopSession :=
  stored.find? (fun t => decide (t.id = sid))

/-- The keys of `AVAILABLE_TOOLS` in backend/app/services/agent_workshop.py. -/
def AVAILABLE_TOOLS : List String :=
  ["web_search", "calculator", "note_taker", "text_analyzer"]

/-- Models the researcher agent of `_fallback_plan`. -/
def fallbackResearcher (goal idR : String) : AgentDefinition :=
  { id := idR, name := "Researcher", role := "Research Specialist",
    goal := "Research information relevant to: " ++ goal,
    backstory :=
      "An experienced researcher skilled at finding and synthesizing information.",
    tools := ["web_search", "note_taker"], order := 0 }

/-- Models the writer agent of `_fallback_plan`. -/
def fallbackWriter (goal idW : String) : AgentDefinition :=
  { id := idW, name := "Writer", role := "Content Synthesizer",
    goal := "Synthesize research into a clear, actionable response for: " ++ goal,
    backstory :=
      "A skilled writer who distills complex research into clear, engaging content.",
    tools := ["text_analyzer", "note_taker"], order := 1 }

/-- Models `_fallback_plan`.  The four ids are the `uuid4` values generated for
the two agents and the two tasks. -/
def fallbackPlan (goal idR idW idT1 idT2 : String) : CrewPlan :=
  { agents := [fallbackResearcher goal idR, fallbackWriter goal idW],
    tasks :=
      [{ id := idT1,
         description := "Research the following topic thoroughly: " ++ goal,
         agent_id := idR,
         expected_output := "Comprehensive research findings with key data points.",
         order := 0 },
       { id := idT2,
         description :=
           "Using the research findings, create a well-structured response "
             ++ "that addresses the goal: " ++ goal,
         agent_id := idW,
         expected_output :=
           "A clear, actionable response addressing the user\x27s goal.",
         order := 1 }],
    execution_order := "sequential",
    summary := "A 2-agent crew (Researcher + Writer) to: " ++ pyTrunc goal 100 }

/-- One agent object of the JSON the plan-synthesis LLM returned (each field
absent when the key is missing). -/
structure ParsedAgent where
  name : Option String := none
  role : Option String := none
  goal : Option String := none
  backstory : Option String := none
  tools : List String := []
deriving DecidableEq

/-- One task object of the parsed JSON. -/
structure ParsedTask where
  description : Option String := none
  agent_index : Option Int := none
  expected_output : Option String := none
deriving DecidableEq

/-- Outcome of extracting and parsing the JSON object from the LLM's raw
response in `plan_crew`: no braces found (`ValueError`), `json.loads` failure
(`JSONDecodeError`), or a parsed object. -/
inductive PlanSynthOutcome where
  | noJson
  | badJson
  | parsed (summary : Option String) (agents : List ParsedAgent)
      (tasks : List ParsedTask)
deriving DecidableEq

/-- Python list indexing `l[i]` with negative-index wraparound; `none` is an
`IndexError`. -/
def pyListGet {α : Type} (l : List α) (i : Int) : Option α :=
  if 0 ≤ i then l.get? i.toNat
  else if 0 ≤ i + l.length then l.get? (i + l.length).toNat else none

/-- Agent list built from the parsed JSON in `plan_crew` (ids supplied by the
`uuid4` oracle `idGen`, numbered in creation order). -/
def planCrewAgents (idGen : Nat → String) (pagents : List ParsedAgent) :
    List AgentDefinition :=
  pagents.enum.map (fun p =>
    { id := idGen p.1,
      name := p.2.name.getD ("Agent " ++ toString (p.1 + 1)),
      role := p.2.role.getD "General Assistant",
      goal := p.2.goal.getD "Help accomplish the user\x27s objective",
      backstory := p.2.backstory.getD "An experienced professional.",
      tools := p.2.tools.filter (fun t => AVAILABLE_TOOLS.contains t),
      order := p.1 })

/-- One task built from the parsed JSON in `plan_crew`: the `agent_index` is
defaulted to `min(i, len(agents) - 1)`, clamped from above to the last agent,
and an out-of-range negative index is Python's `IndexError` escaping
`plan_crew`. -/
def planCrewTask (idGen : Nat → String) (nAgents : Nat)
    (agents : List AgentDefinition) (i : Nat) (t : ParsedTask) :
    Except String TaskDefinition :=
  let idx0 : Int := t.agent_index.getD (min (i : Int) ((agents.length : Int) - 1))
  let idx : Int :=
    if (agents.length : Int) ≤ idx0 then (agents.length : Int) - 1 else idx0
  let aid : Except String String :=
    if agents.isEmpty then .ok ""
    else
      match pyListGet agents idx with
      | some a => .ok a.id
      | none => .error "list index out of range"
  aid.map (fun aidv =>
    { id := idGen (nAgents + i),
      description := t.description.getD "",
      agent_id := aidv,
      expected_output := t.expected_output.getD "",
      order := i })

/-- Models `plan_crew` after the external LLM call: fall back on unparseable
output, otherwise build agents and tasks from the parsed JSON. -/
def plan_crew (goal : String) (idGen : Nat → String) (o : PlanSynthOutcome) :
    Except String CrewPlan :=
  match o with
  | .noJson => .ok (fallbackPlan goal (idGen 0) (idGen 1) (idGen 2) (idGen 3))
  | .badJson => .ok (fallbackPlan goal (idGen 0) (idGen 1) (idGen 2) (idGen 3))
  | .parsed summary pagents ptasks =>
    let agents := planCrewAgents idGen pagents
    (ptasks.enum.mapM (fun p =>
        planCrewTask idGen pagents.length agents p.1 p.2)).map
      (fun tasks =>
        { agents := agents,
          tasks := tasks,
          execution_order := "sequential",
          summary := summary.getD
            ("A crew of " ++ toString agents.length ++ " agents to: "
              ++ pyTrunc goal 100) })

/-- Models the validation in the `/workshop/execute` endpoint: only agent and
task non-emptiness are checked (`true` means the request is accepted). -/
def validateExecute (plan : CrewPlan) : Bool :=
  !plan.agents.isEmpty && !plan.tasks.isEmpty

/-- Models the `/workshop/plan/edit` endpoint: non-emptiness plus the
task-to-agent reference invariant; the error carries the HTTP 400 detail. -/
def editPlanCheck (plan : CrewPlan) : Except String CrewPlan :=
  if plan.agents.isEmpty then .error "At least one agent is required"
  else if plan.tasks.isEmpty then .error "At least one task is required"
  else
    match plan.tasks.find?
        (fun t => !plan.agents.any (fun a => decide (a.id = t.agent_id))) with
    | some t => .error ("Task references unknown agent_id: " ++ t.agent_id)
    | none => .ok plan

/-- Models the task-to-agent resolution inside `execute_crew` (lines 426-429):
an unknown `agent_id` is silently replaced by the first agent's id (or `""`
when the plan has no agents). -/
def resolveTaskAgentId (plan : CrewPlan) (t : TaskDefinition) : String :=
  if plan.agents.any (fun a => decide (a.id = t.agent_id)) then t.agent_id
  else
    match plan.agents with
    | [] => ""
    | a :: _ => a.id

/-- Models `asyncio.Queue(maxsize=500)` in `execute_crew`. -/
def QUEUE_CAPACITY : Nat := 500

/-- The process-wide callback bookkeeping of the engine: the
`_current_agent_name` pointer, the `_agent_start_times` table, and the
note-store's `_notes_store` dict, all reset at run start. -/
structure CbState where
  currentAgent : Option String := none
  startTimes : List (String × Int) := []
  notes : List (String × String) := []
deriving DecidableEq

/-- Stable insertion of an agent into a list sorted by `order` (equal keys
keep their relative position, as in Python's stable `sorted`). -/
def insertByOrder (a : AgentDefinition) :
    List AgentDefinition → List AgentDefinition
  | [] => [a]
  | b :: rest =>
    if b.order ≤ a.order then b :: insertByOrder a rest else a :: b :: rest

/-- Models `sorted(plan.agents, key=lambda a: a.order)`. -/
def sortByOrder : List AgentDefinition → List AgentDefinition
  | [] => []
  | a :: rest => insertByOrder a (sortByOrder rest)

/-- Models the `crewai_role_to_name` dict built over the agents in `order`
order (a later agent with a duplicate role overwrites the earlier name). -/
def roleToName (plan : CrewPlan) : List (String × String) :=
  (sortByOrder plan.agents).foldl (fun m a => dictSet m a.role a.name) []

/-- The `agent_start` event as built in the source. -/
def agentStartEvent (now : Int) (name : String) : ExecutionEvent :=
  { type := .agent_start, agent_name := name,
    content := name ++ " is starting work...", timestamp := now }

/-- The `agent_complete` event as built in the source; `dur` models
`round(time.time() - start, 1)` as the integer difference. -/
def agentCompleteEvent (now : Int) (name : String) (dur : Int) : ExecutionEvent :=
  { type := .agent_complete, agent_name := name,
    content := name ++ " completed their work.", timestamp := now,
    metadata := { duration_seconds := some dur } }

/-- The `handoff` event as built in the source. -/
def handoffEvent (now : Int) (fromN toN : String) : ExecutionEvent :=
  { type := .handoff, agent_name := fromN,
    content := "Passing findings to " ++ toN ++ "...", timestamp := now,
    metadata := { fromAgent := some fromN, toAgent := some toN } }

/-- The `error` event yielded by `execute_crew`'s exception handler. -/
def errorEvent (now : Int) (msg : String) : ExecutionEvent :=
  { type := .error, content := "Execution error: " ++ msg, timestamp := now }

/-- The `crew_complete` event as built in the source. -/
def crewCompleteEvent (startNow endNow : Int) (toolCalls agentsUsed : Nat)
    (result : String) : ExecutionEvent :=
  { type := .crew_complete, content := result, timestamp := endNow,
    metadata := { execution_time_seconds := some (endNow - startNow),
                  total_tool_calls := some toolCalls,
                  agents_used := some agentsUsed } }

/-- One tool invocation observed during the run, with the outcome of its
external work. -/
inductive ToolInvocation where
  | webSearch (query : String) (o : SearchOutcome)
  | calculator (expression : String) (o : ExtOutcome)
  | noteTaker (action key content : String)
  | textAnalyzer (text analysisType : String) (o : ExtOutcome)
deriving DecidableEq

/-- One step of the concurrent run, in channel-publication order: a CrewAI
step notification (`step_callback`, carrying the role extracted from the
opaque step object, `none` when unrecognizable), a task-completion
notification (`_task_callback`), a tool invocation running on the worker, or
one consumer poll that pulls a single queued event within the timeout. -/
inductive RunAction where
  | step (now : Int) (role : Option String)
  | taskDone (now : Int)
  | tool (now : Int) (inv : ToolInvocation)
  | poll
deriving DecidableEq

/-- Models `step_callback` (lines 445-481): events it publishes (in order)
and the updated bookkeeping.  Python truthiness of `agent_role` and of
`_current_agent_name` (empty strings are falsy) is modelled explicitly. -/
def stepPublished (roleMap : List (String × String)) (st : CbState) (now : Int)
    (role : Option String) : List ExecutionEvent × CbState :=
  match role with
  | none => ([], st)
  | some r =>
    if r = "" then ([], st)
    else
      match dictGet roleMap r with
      | none => ([], st)
      | some newName =>
        if some newName = st.currentAgent then ([], st)
        else
          let closing : List ExecutionEvent :=
            match st.currentAgent with
            | some prev =>
              if prev = "" then []
              else
                match dictGet st.startTimes prev with
                | some t0 =>
                  [agentCompleteEvent now prev (now - t0),
                   handoffEvent now prev newName]
                | none => []
            | none => []
          (closing ++ [agentStartEvent now newName],
           { st with currentAgent := some newName,
                     startTimes := dictSet st.startTimes newName now })

/-- Models `_task_callback`: a defensive `agent_complete` for the currently
recorded agent, when it has a truthy name and a recorded start time. -/
def taskDonePublished (st : CbState) (now : Int) : List ExecutionEvent :=
  match st.currentAgent with
  | some name =>
    if name = "" then []
    else
      match dictGet st.startTimes name with
      | some t0 => [agentCompleteEvent now name (now - t0)]
      | none => []
  | none => []

/-- Events published by one producer action, with the updated bookkeeping
(the queue is handled separately by `emitSync`). -/
def producerPublished (roleMap : List (String × String)) (st : CbState) :
    RunAction → List ExecutionEvent × CbState
  | .step now role => stepPublished roleMap st now role
  | .taskDone now => (taskDonePublished st now, st)
  | .tool now inv =>
    match inv with
    | .webSearch q o => ((webSearchRun now q o).1, st)
    | .calculator e o => ((calculatorRun now e o).1, st)
    | .noteTaker a k c =>
      let r := noteTakerRun now a k c st.notes
      (r.1, { st with notes := r.2.2 })
    | .textAnalyzer t ty o => ((textAnalyzerRun now t ty o).1, st)
  | .poll => ([], st)

/-- Full state of the engine's concurrency bridge during one run. -/
structure EngineState where
  cb : CbState := {}
  queue : List ExecutionEvent := []
  delivered : List ExecutionEvent := []
  droppedCount : Nat := 0
  toolCalls : Nat := 0
deriving DecidableEq

/-- Models `_emit_sync`: `put_nowait` onto the bounded queue; on a full queue
the event is dropped and a warning is logged (counted in `droppedCount`). -/
def emitSync (st : EngineState) (e : ExecutionEvent) : EngineState :=
  if st.queue.length < QUEUE_CAPACITY then { st with queue := st.queue ++ [e] }
  else { st with droppedCount := st.droppedCount + 1 }

/-- Delivery of one event to the consumer: re-yielded in arrival order, with
`tool_call` events counted as they pass through (lines 508-509, 515-516). -/
def deliverEvent (st : EngineState) (e : ExecutionEvent) : EngineState :=
  { st with delivered := st.delivered ++ [e],
            toolCalls :=
              if e.type = .tool_call then st.toolCalls + 1 else st.toolCalls }

/-- Effect of one producer action on the bridge: its published events are
handed to `_emit_sync` one by one, and the bookkeeping advances. -/
def runProduce (roleMap : List (String × String)) (st : EngineState)
    (a : RunAction) : EngineState :=
  (producerPublished roleMap st.cb a).1.foldl emitSync
    { st with cb := (producerPublished roleMap st.cb a).2 }

/-- One step of the bridged run: a producer action publishes its events onto
the queue; a poll pulls at most one queued event (a timeout with an empty
queue delivers nothing and the loop repeats). -/
def runStep (roleMap : List (String × String)) (st : EngineState) :
    RunAction → EngineState
  | .poll =>
    match st.queue with
    | [] => st
    | e :: rest => deliverEvent { st with queue := rest } e
  | .step now role => runProduce roleMap st (.step now role)
  | .taskDone now => runProduce roleMap st (.taskDone now)
  | .tool now inv => runProduce roleMap st (.tool now inv)

/-- The engine loop folded over the whole schedule. -/
def runSched (roleMap : List (String × String)) (st : EngineState)
    (sched : List RunAction) : EngineState :=
  sched.foldl (runStep roleMap) st

/-- Models the drain after the worker completes (lines 512-518): every still
buffered event is delivered, in order, before the loop ends. -/
def drain (st : EngineState) : EngineState :=
  st.queue.foldl deliverEvent { st with queue := [] }

/-- Outcome of the blocking worker call: `crew.kickoff` returned a result,
raised during the run, or the agent/task/crew construction itself raised
before the first event was yielded. -/
inductive WorkerOutcome where
  | success (result : String)
  | failure (message : String)
  | buildFailure (message : String)
deriving DecidableEq

/-- Whether building the CrewAI tasks succeeds: with no agents and at least
one task, `crewai_agents[agent_id]` is a `KeyError` on the empty id. -/
def buildOk (plan : CrewPlan) : Bool :=
  !plan.agents.isEmpty || plan.tasks.isEmpty

/-- The initial yield of `execute_crew` (lines 492-500): an `agent_start` for
the first agent in `order` order, with its start time recorded. -/
def initStart (plan : CrewPlan) (startNow : Int) :
    List ExecutionEvent × CbState :=
  match (sortByOrder plan.agents).head? with
  | some a =>
    ([agentStartEvent startNow a.name],
     { currentAgent := some a.name, startTimes := dictSet [] a.name startNow })
  | none => ([], {})

/-- The defensive final `agent_complete` of `execute_crew` (lines 524-531). -/
def finalComplete (endNow : Int) (st : CbState) : List ExecutionEvent :=
  match st.currentAgent with
  | some name =>
    if name = "" then []
    else
      match dictGet st.startTimes name with
      | some t0 => [agentCompleteEvent endNow name (endNow - t0)]
      | none => []
  | none => []

/-- The bridge state at worker completion, after the final drain: the engine
loop folded over the schedule from the per-run fresh state. -/
def engineEnd (plan : CrewPlan) (startNow : Int) (sched : List RunAction) :
    EngineState :=
  drain (runSched (roleToName plan) { cb := (initStart plan startNow).2 } sched)

/-- Models `execute_crew` over one run: the ordered event sequence the
consumer receives, together with the final bridge state.  `startNow`/`endNow`
are the `time.time()` readings at run start and at worker completion; the
message of the `KeyError` raised on an empty-agents plan with tasks is
`str(KeyError(""))`, i.e. two quotes. -/
def executeCrew (plan : CrewPlan) (startNow endNow : Int)
    (sched : List RunAction) (outcome : WorkerOutcome) :
    List ExecutionEvent × EngineState :=
  if !buildOk plan then ([errorEvent endNow "\x27\x27"], {})
  else
    match outcome with
    | .buildFailure msg => ([errorEvent endNow msg], {})
    | .failure msg =>
      ((initStart plan startNow).1 ++ (engineEnd plan startNow sched).delivered
         ++ [errorEvent endNow msg],
       engineEnd plan startNow sched)
    | .success result =>
      ((initStart plan startNow).1 ++ (engineEnd plan startNow sched).delivered
         ++ finalComplete endNow (engineEnd plan startNow sched).cb
         ++ [crewCompleteEvent startNow endNow
               (engineEnd plan startNow sched).toolCalls
               plan.agents.length result],
       engineEnd plan startNow sched)

/-- One frame of the outgoing SSE text stream: a serialized event
(`data: ... event json ...`), the raw error frame written by the recorder's
exception handler, or the end-of-stream sentinel frame (the exact text
`data: [DONE]` followed by a blank line). -/
inductive Frame where
  | data (e : ExecutionEvent)
  | errorData (msg : String)
  | done
deriving DecidableEq

/-- Result of one recorder run: the frames sent to the client and the session
as persisted by the final `save_session`. -/
structure StreamResult where
  frames : List Frame
  session : WorkshopSession
deriving DecidableEq

/-- The recorder's capture of `crew_complete` data (result text, elapsed
seconds, tool-call count), overwritten each time such an event passes. -/
def captureCrewComplete (acc : String × Int × Nat) (e : ExecutionEvent) :
    String × Int × Nat :=
  if e.type = .crew_complete then
    (e.content, e.metadata.execution_time_seconds.getD 0,
     e.metadata.total_tool_calls.getD 0)
  else acc

/-- Models `stream_workshop_events` given the events the engine generator
yielded before finishing or before an exception escaped it (`esc` is the
escaped exception's message, `none` when the generator finished normally).
On a normal finish the session gets the events, the captured result and
timing, and status `complete`; on an escape the session keeps its default
empty event list, stores the exception text as the result, and gets status
`error`, and a raw error frame is sent.  The sentinel frame follows on both
paths. -/
def streamWorkshopEvents (plan : CrewPlan) (goal sid created : String)
    (evs : List ExecutionEvent) (esc : Option String) : StreamResult :=
  let session0 : WorkshopSession :=
    { id := sid, goal := goal, crew_plan := plan, status := .running,
      created_at := created }
  match esc with
  | none =>
    let cap := evs.foldl captureCrewComplete ("", 0, 0)
    { frames := evs.map Frame.data ++ [Frame.done],
      session :=
        { session0 with events := evs, result := cap.1,
                        execution_time_seconds := cap.2.1,
                        total_tokens := cap.2.2, status := .complete } }
  | some e =>
    { frames := evs.map Frame.data ++ [Frame.errorData e, Frame.done],
      session := { session0 with status := .error, result := e } }

/-- The composed pipeline: `execute_crew` catches every exception inside its
own body and converts it into an `error` event, so no exception escapes the
engine generator into the recorder (`esc = none`). -/
def runWorkshop (plan : CrewPlan) (goal sid created : String)
    (startNow endNow : Int) (sched : List RunAction)
    (outcome : WorkerOutcome) : StreamResult :=
  streamWorkshopEvents plan goal sid created
    (executeCrew plan startNow endNow sched outcome).1 none

/-- Terminal substantive events of a run. -/
def isTerminal (e : ExecutionEvent) : Bool :=
  decide (e.type = .crew_complete) || decide (e.type = .error)

/-- The terminal event type a run must end with: `crew_complete` exactly when
the worker succeeded on a buildable plan, `error` otherwise. -/
def expectedTerminal (plan : CrewPlan) (o : WorkerOutcome) : EventType :=
  match o with
  | .success _ => if buildOk plan then .crew_complete else .error
  | .failure _ => .error
  | .buildFailure _ => .error

/-- Count of `tool_call` events in a list. -/
def countTc (l : List ExecutionEvent) : Nat :=
  l.countP (fun e => decide (e.type = .tool_call))

/-- Scanning check that every `handoff` is immediately preceded by an
`agent_complete` and immediately followed by an `agent_start`; `prev` is the
type of the element just before the current head (`none` at the list head,
so a leading or trailing `handoff` fails). -/
def hbAux (prev : Option EventType) : List ExecutionEvent → Bool
  | [] => true
  | y :: rest =>
    (if y.type = .handoff then
       decide (prev = some .agent_complete)
         && decide ((rest.head?.map (fun z => z.type)) = some .agent_start)
     else true)
      && hbAux (some y.type) rest

/-- A run's event list places every handoff strictly between an
`agent_complete` and the next `agent_start` (in particular a handoff is never
the first or last event). -/
def handoffPlaced (l : List ExecutionEvent) : Bool :=
  hbAux none l

/-- The bookkeeping evolution of one producer action, independent of the
queue (the source updates `_current_agent_name`, `_agent_start_times` and
`_notes_store` whether or not the published event fits in the queue). -/
def cbNext (roleMap : List (String × String)) (cb : CbState) (a : RunAction) :
    CbState :=
  (producerPublished roleMap cb a).2

/-- All events published (i.e. handed to `_emit_sync`) over a schedule, in
publication order. -/
def publishedAll (roleMap : List (String × String)) (cb : CbState) :
    List RunAction → List ExecutionEvent
  | [] => []
  | a :: rest =>
    (producerPublished roleMap cb a).1
      ++ publishedAll roleMap (cbNext roleMap cb a) rest

/-! Concrete fixtures used by witnesses and counterexamples. -/

/-- A one-agent plan with one task (the spec's Scenario A shape). -/
def exPlanSolo : CrewPlan :=
  { agents := [{ id := "s1", name := "Solo", role := "RS", goal := "g",
                 backstory := "b", tools := ["calculator"], order := 0 }],
    tasks := [{ id := "t1", description := "d", agent_id := "s1",
                expected_output := "o", order := 0 }] }

/-- A two-agent plan (roles RA/RB, names A/B). -/
def exPlanTwo : CrewPlan :=
  { agents :=
      [{ id := "a1", name := "A", role := "RA", goal := "g", backstory := "b",
         tools := ["calculator"], order := 0 },
       { id := "b1", name := "B", role := "RB", goal := "g", backstory := "b",
         tools := [], order := 1 }],
    tasks := [{ id := "t1", description := "d", agent_id := "a1",
                expected_output := "o", order := 0 },
              { id := "t2", description := "d2", agent_id := "b1",
                expected_output := "o2", order := 1 }] }

/-- A two-agent plan whose first agent has an empty name: the recorded
active-agent name is then falsy in Python, so `step_callback` skips the
`agent_complete`/`handoff` pair on a role change. -/
def exPlanEmptyName : CrewPlan :=
  { agents :=
      [{ id := "a1", name := "", role := "RA", goal := "g", backstory := "b",
         tools := [], order := 0 },
       { id := "b1", name := "B", role := "RB", goal := "g", backstory := "b",
         tools := [], order := 1 }],
    tasks := [{ id := "t1", description := "d", agent_id := "a1",
                expected_output := "o", order := 0 }] }

/-- A plan whose only task references an agent id that no agent has. -/
def exPlanDangling : CrewPlan :=
  { agents := [{ id := "a1", name := "A", role := "RA", goal := "g",
                 backstory := "b", tools := [], order := 0 }],
    tasks := [{ id := "t1", description := "d", agent_id := "ghost",
                expected_output := "o", order := 0 }] }

/-- A calculator invocation with a successful tiny evaluation. -/
def exCalcAct : RunAction :=
  RunAction.tool 1 (.calculator "1+1" (.value "2"))

/-- A web-search invocation whose external call raised. -/
def exFailSearchAct : RunAction :=
  RunAction.tool 1 (.webSearch "q" (.raises "boom"))

/-- A 501-character string: a calculator `eval` result longer than the
500-character preview bound the spec asserts for all tools. -/
def exLongStr : String :=
  String.mk (List.replicate 501 'x')

/-- The schedule that fills the queue to 498 events with 249 calculator
invocations and then reports a role change: the resulting
`agent_complete`/`handoff` fit the queue (events 499 and 500) but the
`agent_start` is dropped, so the delivered handoff is not followed by an
`agent_start`. -/
def exOverflowSched : List RunAction :=
  List.replicate 249 exCalcAct ++ [RunAction.step 2 (some "RB")]

/-! Basic lemmas about the event constructors and the bridge state. -/

@[simp]
theorem agentStartEvent_type (now : Int) (n : String) :
    (agentStartEvent now n).type = .agent_start := rfl

@[simp]
theorem agentCompleteEvent_type (now : Int) (n : String) (d : Int) :
    (agentCompleteEvent now n d).type = .agent_complete := rfl

@[simp]
theorem handoffEvent_type (now : Int) (a b : String) :
    (handoffEvent now a b).type = .handoff := rfl

@[simp]
theorem errorEvent_type (now : Int) (m : String) :
    (errorEvent now m).type = .error := rfl

@[simp]
theorem crewCompleteEvent_type (s e : Int) (tc au : Nat) (r : String) :
    (crewCompleteEvent s e tc au r).type = .crew_complete := rfl

@[simp]
theorem emitSync_cb (st : EngineState) (e : ExecutionEvent) :
    (emitSync st e).cb = st.cb := by
  unfold emitSync; split <;> rfl

@[simp]
theorem emitSync_delivered (st : EngineState) (e : ExecutionEvent) :
    (emitSync st e).delivered = st.delivered := by
  unfold emitSync; split <;> rfl

@[simp]
theorem emitSync_toolCalls (st : EngineState) (e : ExecutionEvent) :
    (emitSync st e).toolCalls = st.toolCalls := by
  unfold emitSync; split <;> rfl

theorem emitSync_dropped_le (st : EngineState) (e : ExecutionEvent) :
    st.droppedCount ≤ (emitSync st e).droppedCount := by
  unfold emitSync; split <;> simp

theorem emitFold_cb (l : List ExecutionEvent) (st : EngineState) :
    (l.foldl emitSync st).cb = st.cb := by
  induction l generalizing st with
  | nil => rfl
  | cons e rest ih => rw [List.foldl_cons, ih, emitSync_cb]

theorem emitFold_delivered (l : List ExecutionEvent) (st : EngineState) :
    (l.foldl emitSync st).delivered = st.delivered := by
  induction l generalizing st with
  | nil => rfl
  | cons e rest ih => rw [List.foldl_cons, ih, emitSync_delivered]

theorem emitFold_toolCalls (l : List ExecutionEvent) (st : EngineState) :
    (l.foldl emitSync st).toolCalls = st.toolCalls := by
  induction l generalizing st with
  | nil => rfl
  | cons e rest ih => rw [List.foldl_cons, ih, emitSync_toolCalls]

theorem emitFold_dropped_le (l : List ExecutionEvent) (st : EngineState) :
    st.droppedCount ≤ (l.foldl emitSync st).droppedCount := by
  induction l generalizing st with
  | nil => exact Nat.le_refl _
  | cons e rest ih =>
    exact Nat.le_trans (emitSync_dropped_le st e) (ih (emitSync st e))

theorem emitFold_no_drop (l : List ExecutionEvent) (st : EngineState)
    (h : (l.foldl emitSync st).droppedCount = st.droppedCount) :
    l.foldl emitSync st = { st with queue := st.queue ++ l } := by
  induction l generalizing st with
  | nil => simp
  | cons e rest ih =>
    rw [List.foldl_cons] at h ⊢
    by_cases hq : st.queue.length < QUEUE_CAPACITY
    · have he : emitSync st e = { st with queue := st.queue ++ [e] } := by
        unfold emitSync; simp [hq]
      rw [he] at h ⊢
      rw [ih _ h]
      simp
    · have he : emitSync st e = { st with droppedCount := st.droppedCount + 1 } := by
        unfold emitSync; simp [hq]
      rw [he] at h
      have hle := emitFold_dropped_le rest
        { st with droppedCount := st.droppedCount + 1 }
      simp at hle
      omega

theorem emitFold_queue_mem (l : List ExecutionEvent) (st : EngineState) :
    ∀ ev ∈ (l.foldl emitSync st).queue, ev ∈ st.queue ∨ ev ∈ l := by
  induction l generalizing st with
  | nil => intro ev hev; exact Or.inl hev
  | cons e rest ih =>
    intro ev hev
    rw [List.foldl_cons] at hev
    rcases ih (emitSync st e) ev hev with hq | hl
    · unfold emitSync at hq
      split at hq
      · rcases List.mem_append.mp hq with h1 | h1
        · exact Or.inl h1
        · simp at h1; subst h1; exact Or.inr (List.mem_cons_self _ _)
      · exact Or.inl hq
    · exact Or.inr (List.mem_cons_of_mem _ hl)

theorem emitFold_queue_le (l : List ExecutionEvent) (st : EngineState)
    (h : st.queue.length ≤ QUEUE_CAPACITY) :
    (l.foldl emitSync st).queue.length ≤ QUEUE_CAPACITY := by
  induction l generalizing st with
  | nil => exact h
  | cons e rest ih =>
    rw [List.foldl_cons]
    refine ih (emitSync st e) ?_
    unfold emitSync
    split
    · next hlt => simp only [List.length_append, List.length_singleton]; omega
    · exact h

@[simp]
theorem deliverEvent_cb (st : EngineState) (e : ExecutionEvent) :
    (deliverEvent st e).cb = st.cb := rfl

@[simp]
theorem deliverEvent_queue (st : EngineState) (e : ExecutionEvent) :
    (deliverEvent st e).queue = st.queue := rfl

@[simp]
theorem deliverEvent_dropped (st : EngineState) (e : ExecutionEvent) :
    (deliverEvent st e).droppedCount = st.droppedCount := rfl

theorem deliverFold_delivered (l : List ExecutionEvent) (st : EngineState) :
    (l.foldl deliverEvent st).delivered = st.delivered ++ l := by
  induction l generalizing st with
  | nil => simp
  | cons e rest ih =>
    rw [List.foldl_cons, ih]
    simp [deliverEvent]

theorem deliverFold_cb (l : List ExecutionEvent) (st : EngineState) :
    (l.foldl deliverEvent st).cb = st.cb := by
  induction l generalizing st with
  | nil => rfl
  | cons e rest ih => rw [List.foldl_cons, ih, deliverEvent_cb]

theorem deliverFold_queue (l : List ExecutionEvent) (st : EngineState) :
    (l.foldl deliverEvent st).queue = st.queue := by
  induction l generalizing st with
  | nil => rfl
  | cons e rest ih => rw [List.foldl_cons, ih, deliverEvent_queue]

theorem deliverFold_dropped (l : List ExecutionEvent) (st : EngineState) :
    (l.foldl deliverEvent st).droppedCount = st.droppedCount := by
  induction l generalizing st with
  | nil => rfl
  | cons e rest ih => rw [List.foldl_cons, ih, deliverEvent_dropped]

theorem deliverFold_toolCalls (l : List ExecutionEvent) (st : EngineState) :
    (l.foldl deliverEvent st).toolCalls = st.toolCalls + countTc l := by
  induction l generalizing st with
  | nil => simp [countTc]
  | cons e rest ih =>
    rw [List.foldl_cons, ih]
    simp only [deliverEvent, countTc, List.countP_cons]
    split
    · next hty => simp [hty]; omega
    · next hty => simp [hty]

theorem drain_delivered (st : EngineState) :
    (drain st).delivered = st.delivered ++ st.queue := by
  unfold drain; rw [deliverFold_delivered]

theorem drain_queue (st : EngineState) : (drain st).queue = [] := by
  unfold drain; rw [deliverFold_queue]

theorem drain_cb (st : EngineState) : (drain st).cb = st.cb := by
  unfold drain; rw [deliverFold_cb]

theorem drain_dropped (st : EngineState) :
    (drain st).droppedCount = st.droppedCount := by
  unfold drain; rw [deliverFold_dropped]

theorem drain_toolCalls (st : EngineState) :
    (drain st).toolCalls = st.toolCalls + countTc st.queue := by
  unfold drain; rw [deliverFold_toolCalls]

/-! Lemmas about one machine step and about whole schedules. -/

theorem runStep_eq_produce (rm : List (String × String)) (st : EngineState)
    (a : RunAction) (h : a ≠ .poll) : runStep rm st a = runProduce rm st a := by
  cases a with
  | poll => exact absurd rfl h
  | step now role => rfl
  | taskDone now => rfl
  | tool now inv => rfl

theorem runStep_poll_nil (rm : List (String × String)) (st : EngineState)
    (h : st.queue = []) : runStep rm st .poll = st := by
  unfold runStep; rw [h]

theorem runStep_poll_cons (rm : List (String × String)) (st : EngineState)
    (e : ExecutionEvent) (rest : List ExecutionEvent) (h : st.queue = e :: rest) :
    runStep rm st .poll = deliverEvent { st with queue := rest } e := by
  unfold runStep; rw [h]

theorem runProduce_cb (rm : List (String × String)) (st : EngineState)
    (a : RunAction) : (runProduce rm st a).cb = cbNext rm st.cb a := by
  unfold runProduce cbNext; rw [emitFold_cb]

theorem runProduce_delivered (rm : List (String × String)) (st : EngineState)
    (a : RunAction) : (runProduce rm st a).delivered = st.delivered := by
  unfold runProduce; rw [emitFold_delivered]

theorem runProduce_toolCalls (rm : List (String × String)) (st : EngineState)
    (a : RunAction) : (runProduce rm st a).toolCalls = st.toolCalls := by
  unfold runProduce; rw [emitFold_toolCalls]

theorem runProduce_dropped_le (rm : List (String × String)) (st : EngineState)
    (a : RunAction) : st.droppedCount ≤ (runProduce rm st a).droppedCount := by
  unfold runProduce
  exact emitFold_dropped_le (producerPublished rm st.cb a).1
    { st with cb := (producerPublished rm st.cb a).2 }

theorem runProduce_trace (rm : List (String × String)) (st : EngineState)
    (a : RunAction) (h : (runProduce rm st a).droppedCount = st.droppedCount) :
    (runProduce rm st a).delivered ++ (runProduce rm st a).queue
      = st.delivered ++ st.queue ++ (producerPublished rm st.cb a).1 := by
  unfold runProduce at h ⊢
  rw [emitFold_no_drop _ _ h]
  simp

theorem runProduce_queue_le (rm : List (String × String)) (st : EngineState)
    (a : RunAction) (h : st.queue.length ≤ QUEUE_CAPACITY) :
    (runProduce rm st a).queue.length ≤ QUEUE_CAPACITY := by
  unfold runProduce
  exact emitFold_queue_le _ _ h

theorem runProduce_mem (rm : List (String × String)) (st : EngineState)
    (a : RunAction) (P : ExecutionEvent → Prop)
    (hst : ∀ ev ∈ st.delivered ++ st.queue, P ev)
    (hpub : ∀ ev ∈ (producerPublished rm st.cb a).1, P ev) :
    ∀ ev ∈ (runProduce rm st a).delivered ++ (runProduce rm st a).queue,
      P ev := by
  intro ev hev
  unfold runProduce at hev
  rcases List.mem_append.mp hev with h1 | h1
  · rw [emitFold_delivered] at h1
    exact hst ev (List.mem_append.mpr (Or.inl h1))
  · rcases emitFold_queue_mem _ _ ev h1 with h2 | h2
    · exact hst ev (List.mem_append.mpr (Or.inr h2))
    · exact hpub ev h2

theorem runStep_cb (rm : List (String × String)) (st : EngineState)
    (a : RunAction) : (runStep rm st a).cb = cbNext rm st.cb a := by
  cases a with
  | poll =>
    rcases hq : st.queue with _ | ⟨e, rest⟩
    · rw [runStep_poll_nil rm st hq]; rfl
    · rw [runStep_poll_cons rm st e rest hq]; rfl
  | step now role => rw [runStep_eq_produce rm st _ (by simp)]; exact runProduce_cb rm st _
  | taskDone now => rw [runStep_eq_produce rm st _ (by simp)]; exact runProduce_cb rm st _
  | tool now inv => rw [runStep_eq_produce rm st _ (by simp)]; exact runProduce_cb rm st _

theorem runStep_dropped_le (rm : List (String × String)) (st : EngineState)
    (a : RunAction) : st.droppedCount ≤ (runStep rm st a).droppedCount := by
  cases a with
  | poll =>
    rcases hq : st.queue with _ | ⟨e, rest⟩
    · rw [runStep_poll_nil rm st hq]
    · rw [runStep_poll_cons rm st e rest hq]
      exact Nat.le_refl _
  | step now role =>
    rw [runStep_eq_produce rm st _ (by simp)]; exact runProduce_dropped_le rm st _
  | taskDone now =>
    rw [runStep_eq_produce rm st _ (by simp)]; exact runProduce_dropped_le rm st _
  | tool now inv =>
    rw [runStep_eq_produce rm st _ (by simp)]; exact runProduce_dropped_le rm st _

theorem runStep_trace (rm : List (String × String)) (st : EngineState)
    (a : RunAction) (h : (runStep rm st a).droppedCount = st.droppedCount) :
    (runStep rm st a).delivered ++ (runStep rm st a).queue
      = st.delivered ++ st.queue ++ (producerPublished rm st.cb a).1 := by
  cases a with
  | poll =>
    rcases hq : st.queue with _ | ⟨e, rest⟩
    · rw [runStep_poll_nil rm st hq]
      simp [producerPublished, hq]
    · rw [runStep_poll_cons rm st e rest hq]
      simp [producerPublished, hq, deliverEvent]
  | step now role =>
    rw [runStep_eq_produce rm st _ (by simp)] at h ⊢
    exact runProduce_trace rm st _ h
  | taskDone now =>
    rw [runStep_eq_produce rm st _ (by simp)] at h ⊢
    exact runProduce_trace rm st _ h
  | tool now inv =>
    rw [runStep_eq_produce rm st _ (by simp)] at h ⊢
    exact runProduce_trace rm st _ h

theorem runStep_toolCalls_inv (rm : List (String × String)) (st : EngineState)
    (a : RunAction) (h : st.toolCalls = countTc st.delivered) :
    (runStep rm st a).toolCalls = countTc (runStep rm st a).delivered := by
  cases a with
  | poll =>
    rcases hq : st.queue with _ | ⟨e, rest⟩
    · rw [runStep_poll_nil rm st hq]; exact h
    · rw [runStep_poll_cons rm st e rest hq]
      simp only [deliverEvent]
      rw [h]
      unfold countTc
      rw [List.countP_append]
      split
      · next hty => simp [hty, List.countP_cons]
      · next hty => simp [hty, List.countP_cons]
  | step now role =>
    rw [runStep_eq_produce rm st _ (by simp)]
    rw [runProduce_toolCalls, runProduce_delivered]
    exact h
  | taskDone now =>
    rw [runStep_eq_produce rm st _ (by simp)]
    rw [runProduce_toolCalls, runProduce_delivered]
    exact h
  | tool now inv =>
    rw [runStep_eq_produce rm st _ (by simp)]
    rw [runProduce_toolCalls, runProduce_delivered]
    exact h

theorem runStep_queue_le (rm : List (String × String)) (st : EngineState)
    (a : RunAction) (h : st.queue.length ≤ QUEUE_CAPACITY) :
    (runStep rm st a).queue.length ≤ QUEUE_CAPACITY := by
  cases a with
  | poll =>
    rcases hq : st.queue with _ | ⟨e, rest⟩
    · rw [runStep_poll_nil rm st hq]; exact h
    · rw [runStep_poll_cons rm st e rest hq]
      simp only [deliverEvent_queue]
      rw [hq] at h
      simp at h ⊢
      omega
  | step now role =>
    rw [runStep_eq_produce rm st _ (by simp)]; exact runProduce_queue_le rm st _ h
  | taskDone now =>
    rw [runStep_eq_produce rm st _ (by simp)]; exact runProduce_queue_le rm st _ h
  | tool now inv =>
    rw [runStep_eq_produce rm st _ (by simp)]; exact runProduce_queue_le rm st _ h

theorem runStep_all (rm : List (String × String)) (st : EngineState)
    (a : RunAction) (P : ExecutionEvent → Prop)
    (hst : ∀ ev ∈ st.delivered ++ st.queue, P ev)
    (hpub : ∀ ev ∈ (producerPublished rm st.cb a).1, P ev) :
    ∀ ev ∈ (runStep rm st a).delivered ++ (runStep rm st a).queue, P ev := by
  cases a with
  | poll =>
    rcases hq : st.queue with _ | ⟨e, rest⟩
    · rw [runStep_poll_nil rm st hq]; exact hst
    · rw [runStep_poll_cons rm st e rest hq]
      intro ev hev
      apply hst
      rw [hq]
      simp only [deliverEvent, List.mem_append] at hev ⊢
      rcases hev with h1 | h1
      · rcases h1 with h2 | h2
        · exact Or.inl h2
        · simp at h2; subst h2; exact Or.inr (List.mem_cons_self _ _)
      · exact Or.inr (List.mem_cons_of_mem _ h1)
  | step now role =>
    rw [runStep_eq_produce rm st _ (by simp)]
    exact runProduce_mem rm st _ P hst hpub
  | taskDone now =>
    rw [runStep_eq_produce rm st _ (by simp)]
    exact runProduce_mem rm st _ P hst hpub
  | tool now inv =>
    rw [runStep_eq_produce rm st _ (by simp)]
    exact runProduce_mem rm st _ P hst hpub

theorem runSched_cb (rm : List (String × String)) (sched : List RunAction) :
    ∀ st : EngineState,
      (runSched rm st sched).cb = sched.foldl (cbNext rm) st.cb := by
  induction sched with
  | nil => intro st; rfl
  | cons a rest ih =>
    intro st
    unfold runSched at ih ⊢
    rw [List.foldl_cons, List.foldl_cons, ih, runStep_cb]

theorem runSched_dropped_le (rm : List (String × String))
    (sched : List RunAction) : ∀ st : EngineState,
      st.droppedCount ≤ (runSched rm st sched).droppedCount := by
  induction sched with
  | nil => intro st; exact Nat.le_refl _
  | cons a rest ih =>
    intro st
    unfold runSched at ih ⊢
    rw [List.foldl_cons]
    exact Nat.le_trans (runStep_dropped_le rm st a) (ih _)

theorem runSched_trace (rm : List (String × String)) (sched : List RunAction) :
    ∀ st : EngineState,
      (runSched rm st sched).droppedCount = st.droppedCount →
      (runSched rm st sched).delivered ++ (runSched rm st sched).queue
        = st.delivered ++ st.queue ++ publishedAll rm st.cb sched := by
  induction sched with
  | nil => intro st _; simp [runSched, publishedAll]
  | cons a rest ih =>
    intro st h
    unfold runSched at h ih ⊢
    rw [List.foldl_cons] at h ⊢
    have hstep : (runStep rm st a).droppedCount = st.droppedCount := by
      have h1 := runStep_dropped_le rm st a
      have h2 := runSched_dropped_le rm rest (runStep rm st a)
      unfold runSched at h2
      omega
    have hrest : (List.foldl (runStep rm) (runStep rm st a) rest).droppedCount
        = (runStep rm st a).droppedCount := by omega
    rw [ih _ hrest, runStep_trace rm st a hstep, publishedAll, runStep_cb]
    simp [List.append_assoc]

theorem runSched_toolCalls_inv (rm : List (String × String))
    (sched : List RunAction) : ∀ st : EngineState,
      st.toolCalls = countTc st.delivered →
      (runSched rm st sched).toolCalls
        = countTc (runSched rm st sched).delivered := by
  induction sched with
  | nil => intro st h; exact h
  | cons a rest ih =>
    intro st h
    unfold runSched at ih ⊢
    rw [List.foldl_cons]
    exact ih _ (runStep_toolCalls_inv rm st a h)

theorem runSched_queue_le (rm : List (String × String))
    (sched : List RunAction) : ∀ st : EngineState,
      st.queue.length ≤ QUEUE_CAPACITY →
      (runSched rm st sched).queue.length ≤ QUEUE_CAPACITY := by
  induction sched with
  | nil => intro st h; exact h
  | cons a rest ih =>
    intro st h
    unfold runSched at ih ⊢
    rw [List.foldl_cons]
    exact ih _ (runStep_queue_le rm st a h)

theorem runSched_all (rm : List (String × String)) (sched : List RunAction)
    (P : ExecutionEvent → Prop)
    (hpub : ∀ cb a, ∀ ev ∈ (producerPublished rm cb a).1, P ev) :
    ∀ st : EngineState, (∀ ev ∈ st.delivered ++ st.queue, P ev) →
      ∀ ev ∈ (runSched rm st sched).delivered ++ (runSched rm st sched).queue,
        P ev := by
  induction sched with
  | nil => intro st hst; exact hst
  | cons a rest ih =>
    intro st hst
    unfold runSched at ih ⊢
    rw [List.foldl_cons]
    exact ih _ (runStep_all rm st a P hst (hpub st.cb a))

/-! Classification of the event blocks a producer action can publish. -/

theorem stepPublished_shape (rm : List (String × String)) (st : CbState)
    (now : Int) (role : Option String) :
    (stepPublished rm st now role).1 = []
    ∨ (∃ n, (stepPublished rm st now role).1 = [agentStartEvent now n])
    ∨ (∃ p n d, (stepPublished rm st now role).1
        = [agentCompleteEvent now p d, handoffEvent now p n,
           agentStartEvent now n]) := by
  unfold stepPublished
  rcases role with _ | r
  · exact Or.inl rfl
  · by_cases hr : r = ""
    · simp [hr]
    · simp only [hr, if_false]
      cases hdg : dictGet rm r with
      | none => exact Or.inl rfl
      | some newName =>
        by_cases hcur : some newName = st.currentAgent
        · simp [hcur]
        · simp only [hcur, if_false]
          cases hprev : st.currentAgent with
          | none => exact Or.inr (Or.inl ⟨newName, rfl⟩)
          | some prev =>
            by_cases hpe : prev = ""
            · simp [hpe]
            · simp only [hpe, if_false]
              cases hst : dictGet st.startTimes prev with
              | none => exact Or.inr (Or.inl ⟨newName, rfl⟩)
              | some t0 =>
                exact Or.inr (Or.inr ⟨prev, newName, now - t0, rfl⟩)

theorem taskDonePublished_shape (st : CbState) (now : Int) :
    taskDonePublished st now = []
    ∨ (∃ n d, taskDonePublished st now = [agentCompleteEvent now n d]) := by
  unfold taskDonePublished
  cases hcur : st.currentAgent with
  | none => exact Or.inl rfl
  | some name =>
    by_cases hne : name = ""
    · simp [hne]
    · simp only [hne, if_false]
      cases hst : dictGet st.startTimes name with
      | none => exact Or.inl rfl
      | some t0 => exact Or.inr ⟨name, now - t0, rfl⟩

theorem producerPublished_shape (rm : List (String × String)) (cb : CbState)
    (a : RunAction) :
    (producerPublished rm cb a).1 = []
    ∨ (∃ now n, (producerPublished rm cb a).1 = [agentStartEvent now n])
    ∨ (∃ now p n d, (producerPublished rm cb a).1
        = [agentCompleteEvent now p d, handoffEvent now p n,
           agentStartEvent now n])
    ∨ (∃ now n d, (producerPublished rm cb a).1 = [agentCompleteEvent now n d])
    ∨ (∃ c r, (producerPublished rm cb a).1 = [c, r]
        ∧ c.type = .tool_call ∧ r.type = .tool_result) := by
  cases a with
  | poll => exact Or.inl rfl
  | step now role =>
    rcases stepPublished_shape rm cb now role with h | ⟨n, h⟩ | ⟨p, n, d, h⟩
    · exact Or.inl h
    · exact Or.inr (Or.inl ⟨now, n, h⟩)
    · exact Or.inr (Or.inr (Or.inl ⟨now, p, n, d, h⟩))
  | taskDone now =>
    rcases taskDonePublished_shape cb now with h | ⟨n, d, h⟩
    · exact Or.inl h
    · exact Or.inr (Or.inr (Or.inr (Or.inl ⟨now, n, d, h⟩)))
  | tool now inv =>
    refine Or.inr (Or.inr (Or.inr (Or.inr ?_)))
    cases inv with
    | webSearch q o => exact ⟨_, _, rfl, rfl, rfl⟩
    | calculator ex o => exact ⟨_, _, rfl, rfl, rfl⟩
    | noteTaker ac k c => exact ⟨_, _, rfl, rfl, rfl⟩
    | textAnalyzer t ty o => exact ⟨_, _, rfl, rfl, rfl⟩

theorem producerPublished_nonterminal (rm : List (String × String))
    (cb : CbState) (a : RunAction) :
    ∀ ev ∈ (producerPublished rm cb a).1, isTerminal ev = false := by
  intro ev hev
  rcases producerPublished_shape rm cb a with h | ⟨now, n, h⟩ | ⟨now, p, n, d, h⟩
    | ⟨now, n, d, h⟩ | ⟨c, r, h, hc, hr⟩ <;> rw [h] at hev
  · simp at hev
  · simp at hev; subst hev; rfl
  · simp at hev
    rcases hev with h1 | h1 | h1 <;> subst h1 <;> rfl
  · simp at hev; subst hev; rfl
  · simp at hev
    rcases hev with h1 | h1 <;> subst h1 <;> simp [isTerminal, hc, hr]

/-! Lemmas placing handoffs inside published blocks. -/

theorem hbAux_publishedAll (rm : List (String × String))
    (sched : List RunAction) :
    ∀ (cb : CbState) (p : Option EventType) (tail : List ExecutionEvent),
      (∀ q : Option EventType, hbAux q tail = true) →
      hbAux p (publishedAll rm cb sched ++ tail) = true := by
  induction sched with
  | nil =>
    intro cb p tail ht
    simpa [publishedAll] using ht p
  | cons a rest ih =>
    intro cb p tail ht
    show hbAux p (((producerPublished rm cb a).1
      ++ publishedAll rm (cbNext rm cb a) rest) ++ tail) = true
    rcases producerPublished_shape rm cb a with h | ⟨now, n, h⟩
      | ⟨now, pr, n, d, h⟩ | ⟨now, n, d, h⟩ | ⟨c, r, h, hc, hr⟩ <;> rw [h]
    · simpa using ih (cbNext rm cb a) p tail ht
    · simp only [List.cons_append, List.nil_append, hbAux]
      simp only [agentStartEvent_type]
      simp
      exact ih _ _ _ ht
    · simp only [List.cons_append, List.nil_append, hbAux]
      simp only [agentCompleteEvent_type, handoffEvent_type, agentStartEvent_type]
      simp
      exact ih _ _ _ ht
    · simp only [List.cons_append, List.nil_append, hbAux]
      simp only [agentCompleteEvent_type]
      simp
      exact ih _ _ _ ht
    · simp only [List.cons_append, List.nil_append, hbAux]
      simp only [hc, hr]
      simp
      exact ih _ _ _ ht

theorem hbAux_error_tail (q : Option EventType) (now : Int) (msg : String) :
    hbAux q [errorEvent now msg] = true := by
  simp [hbAux]

theorem hbAux_crew_tail (q : Option EventType) (fin : List ExecutionEvent)
    (endNow s e : Int) (tc au : Nat) (res : String)
    (hfin : fin = [] ∨ ∃ n d, fin = [agentCompleteEvent endNow n d]) :
    hbAux q (fin ++ [crewCompleteEvent s e tc au res]) = true := by
  rcases hfin with h | ⟨n, d, h⟩ <;> rw [h] <;> simp [hbAux]

theorem initStart_shape (plan : CrewPlan) (startNow : Int) :
    (initStart plan startNow).1 = []
    ∨ ∃ n, (initStart plan startNow).1 = [agentStartEvent startNow n] := by
  unfold initStart
  cases h : (sortByOrder plan.agents).head? with
  | none => exact Or.inl rfl
  | some a => exact Or.inr ⟨a.name, rfl⟩

theorem finalComplete_shape (endNow : Int) (st : CbState) :
    finalComplete endNow st = []
    ∨ ∃ n d, finalComplete endNow st = [agentCompleteEvent endNow n d] := by
  unfold finalComplete
  cases hcur : st.currentAgent with
  | none => exact Or.inl rfl
  | some name =>
    by_cases hne : name = ""
    · simp [hne]
    · simp only [hne, if_false]
      cases hst : dictGet st.startTimes name with
      | none => exact Or.inl rfl
      | some t0 => exact Or.inr ⟨name, endNow - t0, rfl⟩

/-! Properties of the drained end state of a run. -/

theorem engineEnd_delivered_eq (plan : CrewPlan) (s : Int)
    (sched : List RunAction) (hd : (engineEnd plan s sched).droppedCount = 0) :
    (engineEnd plan s sched).delivered
      = publishedAll (roleToName plan) (initStart plan s).2 sched := by
  unfold engineEnd at hd ⊢
  rw [drain_dropped] at hd
  have htr := runSched_trace (roleToName plan) sched
    { cb := (initStart plan s).2 } (by exact hd)
  rw [drain_delivered, htr]
  simp

theorem engineEnd_delivered_nonterminal (plan : CrewPlan) (s : Int)
    (sched : List RunAction) :
    ∀ ev ∈ (engineEnd plan s sched).delivered, isTerminal ev = false := by
  intro ev hev
  unfold engineEnd at hev
  rw [drain_delivered] at hev
  exact runSched_all (roleToName plan) sched _
    (producerPublished_nonterminal (roleToName plan))
    { cb := (initStart plan s).2 } (by simp) ev hev

theorem engineEnd_toolCalls_eq (plan : CrewPlan) (s : Int)
    (sched : List RunAction) :
    (engineEnd plan s sched).toolCalls
      = countTc (engineEnd plan s sched).delivered := by
  unfold engineEnd
  rw [drain_toolCalls, drain_delivered]
  rw [runSched_toolCalls_inv (roleToName plan) sched
    { cb := (initStart plan s).2 } (by simp [countTc])]
  unfold countTc
  rw [List.countP_append]

theorem initStart_nonterminal (plan : CrewPlan) (s : Int) :
    ∀ ev ∈ (initStart plan s).1, isTerminal ev = false := by
  intro ev hev
  rcases initStart_shape plan s with h | ⟨n, h⟩ <;> rw [h] at hev
  · simp at hev
  · simp at hev; subst hev; rfl

theorem initStart_countTc (plan : CrewPlan) (s : Int) :
    countTc (initStart plan s).1 = 0 := by
  rcases initStart_shape plan s with h | ⟨n, h⟩ <;> rw [h] <;>
    simp [countTc, agentStartEvent]

theorem finalComplete_nonterminal (endNow : Int) (st : CbState) :
    ∀ ev ∈ finalComplete endNow st, isTerminal ev = false := by
  intro ev hev
  rcases finalComplete_shape endNow st with h | ⟨n, d, h⟩ <;> rw [h] at hev
  · simp at hev
  · simp at hev; subst hev; rfl

theorem finalComplete_countTc (endNow : Int) (st : CbState) :
    countTc (finalComplete endNow st) = 0 := by
  rcases finalComplete_shape endNow st with h | ⟨n, d, h⟩ <;> rw [h] <;>
    simp [countTc, agentCompleteEvent]

/-! Structure of the event sequence produced by one engine run. -/

theorem executeCrew_success_event (plan : CrewPlan) (s e : Int)
    (sched : List RunAction) (res : String) (hb : buildOk plan = true) :
    ∃ pre, (executeCrew plan s e sched (.success res)).1
        = pre ++ [crewCompleteEvent s e (countTc pre) plan.agents.length res]
      ∧ (∀ ev ∈ pre, isTerminal ev = false) := by
  refine ⟨(initStart plan s).1 ++ (engineEnd plan s sched).delivered
    ++ finalComplete e (engineEnd plan s sched).cb, ?_, ?_⟩
  · have hc : countTc ((initStart plan s).1 ++ (engineEnd plan s sched).delivered
        ++ finalComplete e (engineEnd plan s sched).cb)
        = (engineEnd plan s sched).toolCalls := by
      unfold countTc
      rw [List.countP_append, List.countP_append]
      have h1 := initStart_countTc plan s
      have h2 := finalComplete_countTc e (engineEnd plan s sched).cb
      have h3 := engineEnd_toolCalls_eq plan s sched
      unfold countTc at h1 h2 h3
      omega
    rw [hc]
    simp [executeCrew, hb, List.append_assoc]
  · intro ev hev
    rcases List.mem_append.mp hev with h1 | h1
    · rcases List.mem_append.mp h1 with h2 | h2
      · exact initStart_nonterminal plan s ev h2
      · exact engineEnd_delivered_nonterminal plan s sched ev h2
    · exact finalComplete_nonterminal e _ ev h1

theorem executeCrew_failure_event (plan : CrewPlan) (s e : Int)
    (sched : List RunAction) (msg : String) (hb : buildOk plan = true) :
    ∃ pre, (executeCrew plan s e sched (.failure msg)).1
        = pre ++ [errorEvent e msg]
      ∧ (∀ ev ∈ pre, isTerminal ev = false) := by
  refine ⟨(initStart plan s).1 ++ (engineEnd plan s sched).delivered, ?_, ?_⟩
  · simp [executeCrew, hb, List.append_assoc]
  · intro ev hev
    rcases List.mem_append.mp hev with h1 | h1
    · exact initStart_nonterminal plan s ev h1
    · exact engineEnd_delivered_nonterminal plan s sched ev h1

theorem buildOk_false_of_not (plan : CrewPlan) (hb : ¬ buildOk plan = true) :
    buildOk plan = false := by
  revert hb; cases buildOk plan <;> simp

theorem executeCrew_terminal (plan : CrewPlan) (s e : Int)
    (sched : List RunAction) (o : WorkerOutcome) :
    ∃ pre t, (executeCrew plan s e sched o).1 = pre ++ [t]
      ∧ (∀ ev ∈ pre, isTerminal ev = false)
      ∧ isTerminal t = true
      ∧ t.type = expectedTerminal plan o := by
  by_cases hb : buildOk plan = true
  · cases o with
    | success res =>
      obtain ⟨pre, he, hp⟩ := executeCrew_success_event plan s e sched res hb
      exact ⟨pre, _, he, hp, rfl, by simp [expectedTerminal, hb]⟩
    | failure msg =>
      obtain ⟨pre, he, hp⟩ := executeCrew_failure_event plan s e sched msg hb
      exact ⟨pre, _, he, hp, rfl, rfl⟩
    | buildFailure msg =>
      refine ⟨[], errorEvent e msg, ?_, by simp, rfl, rfl⟩
      simp [executeCrew, hb]
  · have hb' := buildOk_false_of_not plan hb
    refine ⟨[], errorEvent e "\x27\x27", ?_, by simp, rfl, ?_⟩
    · simp [executeCrew, hb']
    · cases o <;> simp [expectedTerminal, hb']

theorem executeCrew_handoffPlaced (plan : CrewPlan) (s e : Int)
    (sched : List RunAction) (o : WorkerOutcome)
    (hd : (executeCrew plan s e sched o).2.droppedCount = 0) :
    handoffPlaced (executeCrew plan s e sched o).1 = true := by
  by_cases hb : buildOk plan = true
  · cases o with
    | buildFailure msg => simp [executeCrew, hb, handoffPlaced, hbAux]
    | failure msg =>
      have hd2 : (engineEnd plan s sched).droppedCount = 0 := by
        simpa [executeCrew, hb] using hd
      have hdel := engineEnd_delivered_eq plan s sched hd2
      have hsplit : (executeCrew plan s e sched (.failure msg)).1
          = (initStart plan s).1
            ++ (publishedAll (roleToName plan) (initStart plan s).2 sched
                ++ [errorEvent e msg]) := by
        simp [executeCrew, hb, hdel, List.append_assoc]
      unfold handoffPlaced
      rw [hsplit]
      rcases initStart_shape plan s with h | ⟨n, h⟩ <;> rw [h]
      · simpa using hbAux_publishedAll (roleToName plan) sched
          (initStart plan s).2 none _ (fun q => hbAux_error_tail q e msg)
      · simp only [List.cons_append, List.nil_append, hbAux,
          agentStartEvent_type]
        simp
        exact hbAux_publishedAll (roleToName plan) sched
          (initStart plan s).2 _ _ (fun q => hbAux_error_tail q e msg)
    | success res =>
      have hd2 : (engineEnd plan s sched).droppedCount = 0 := by
        simpa [executeCrew, hb] using hd
      have hdel := engineEnd_delivered_eq plan s sched hd2
      have htail : ∀ q : Option EventType,
          hbAux q (finalComplete e (engineEnd plan s sched).cb
            ++ [crewCompleteEvent s e (engineEnd plan s sched).toolCalls
                  plan.agents.length res]) = true := by
        intro q
        exact hbAux_crew_tail q _ e s e _ _ res
          (finalComplete_shape e (engineEnd plan s sched).cb)
      have hsplit : (executeCrew plan s e sched (.success res)).1
          = (initStart plan s).1
            ++ (publishedAll (roleToName plan) (initStart plan s).2 sched
                ++ (finalComplete e (engineEnd plan s sched).cb
                    ++ [crewCompleteEvent s e
                          (engineEnd plan s sched).toolCalls
                          plan.agents.length res])) := by
        simp [executeCrew, hb, hdel, List.append_assoc]
      unfold handoffPlaced
      rw [hsplit]
      rcases initStart_shape plan s with h | ⟨n, h⟩ <;> rw [h]
      · simpa using hbAux_publishedAll (roleToName plan) sched
          (initStart plan s).2 none _ htail
      · simp only [List.cons_append, List.nil_append, hbAux,
          agentStartEvent_type]
        simp
        exact hbAux_publishedAll (roleToName plan) sched
          (initStart plan s).2 _ _ htail
  · have hb' := buildOk_false_of_not plan hb
    simp [executeCrew, hb', handoffPlaced, hbAux]

/-! Characterization of the step-callback transition. -/

theorem stepPublished_change (rm : List (String × String)) (st : CbState)
    (now t0 : Int) (r n prev : String)
    (h1 : r ≠ "") (h2 : dictGet rm r = some n) (h3 : st.currentAgent = some prev)
    (h4 : n ≠ prev) (h5 : prev ≠ "")
    (h6 : dictGet st.startTimes prev = some t0) :
    stepPublished rm st now (some r)
      = ([agentCompleteEvent now prev (now - t0), handoffEvent now prev n,
          agentStartEvent now n],
         { st with currentAgent := some n,
                   startTimes := dictSet st.startTimes n now }) := by
  have hne : ¬ (some n = st.currentAgent) := by
    rw [h3]
    intro hcc
    exact h4 (Option.some.inj hcc)
  unfold stepPublished
  simp [h1, h2, h3, h4, hne, h5, h6]

theorem stepPublished_handoff_only (rm : List (String × String)) (st : CbState)
    (now : Int) (role : Option String)
    (h : (stepPublished rm st now role).1.any
          (fun ev => decide (ev.type = .handoff)) = true) :
    ∃ r n prev, role = some r ∧ dictGet rm r = some n
      ∧ st.currentAgent = some prev ∧ n ≠ prev := by
  unfold stepPublished at h
  rcases role with _ | r
  · simp at h
  · by_cases hr : r = ""
    · simp [hr] at h
    · simp only [hr, if_false] at h
      cases hdg : dictGet rm r with
      | none => rw [hdg] at h; simp at h
      | some n =>
        rw [hdg] at h
        by_cases hcur : some n = st.currentAgent
        · simp [hcur] at h
        · cases hprev : st.currentAgent with
          | none =>
            rw [hprev] at h
            simp at h
          | some prev =>
            refine ⟨r, n, prev, rfl, hdg, rfl, ?_⟩
            intro hnp
            subst hnp
            rw [hprev] at hcur
            exact hcur rfl

/-! Auxiliary lemmas for the recorder and the session store. -/

theorem not_crew_of_nonterminal (ev : ExecutionEvent)
    (h : isTerminal ev = false) : ev.type ≠ .crew_complete := by
  unfold isTerminal at h
  intro hc
  rw [hc] at h
  simp at h

theorem captureFold_no_crew (l : List ExecutionEvent) :
    ∀ acc : String × Int × Nat, (∀ ev ∈ l, ev.type ≠ .crew_complete) →
      l.foldl captureCrewComplete acc = acc := by
  induction l with
  | nil => intro acc _; rfl
  | cons e rest ih =>
    intro acc h
    rw [List.foldl_cons]
    have he : captureCrewComplete acc e = acc := by
      unfold captureCrewComplete
      simp [h e (List.mem_cons_self _ _)]
    rw [he]
    exact ih acc (fun ev hev => h ev (List.mem_cons_of_mem _ hev))

theorem executeCrew_no_crew_capture (plan : CrewPlan) (s e : Int)
    (sched : List RunAction) (o : WorkerOutcome)
    (ht : expectedTerminal plan o = .error) :
    (executeCrew plan s e sched o).1.foldl captureCrewComplete ("", 0, 0)
      = ("", 0, 0) := by
  obtain ⟨pre, t, he, hp, _, hty⟩ := executeCrew_terminal plan s e sched o
  rw [he]
  apply captureFold_no_crew
  intro ev hev
  rcases List.mem_append.mp hev with h1 | h1
  · exact not_crew_of_nonterminal ev (hp ev h1)
  · simp at h1
    subst h1
    rw [hty, ht]
    simp

theorem pyTrunc_length_le (s : String) (n : Nat) : (pyTrunc s n).length ≤ n := by
  show (s.data.take n).length ≤ n
  exact List.length_take_le _ _

theorem pyNextIndex_set_find {α : Type} (p : α → Bool) (l : List α) :
    ∀ (i : Nat) (b : α), p b = true → pyNextIndex p l = some i →
      (l.set i b).find? p = some b := by
  induction l with
  | nil => intro i b _ h; simp [pyNextIndex] at h
  | cons a rest ih =>
    intro i b hp h
    unfold pyNextIndex at h
    by_cases ha : p a
    · simp [ha] at h
      subst h
      simp [List.set, List.find?, hp]
    · simp [ha] at h
      obtain ⟨j, hj, hji⟩ := h
      subst hji
      simp only [List.set]
      rw [List.find?]
      simp [ha]
      exact ih j b hp hj

theorem pyNextIndex_lt_length {α : Type} (p : α → Bool) (l : List α) :
    ∀ i : Nat, pyNextIndex p l = some i → i < l.length := by
  induction l with
  | nil => intro i h; simp [pyNextIndex] at h
  | cons a rest ih =>
    intro i h
    unfold pyNextIndex at h
    by_cases ha : p a
    · simp [ha] at h; subst h; simp
    · simp [ha] at h
      obtain ⟨j, hj, hji⟩ := h
      subst hji
      have := ih j hj
      simp
      omega

/-! Claim theorems. -/

/-- C1: for every run of the streaming interface, the consumer receives
exactly one terminal substantive event — `crew_complete` exactly when the
worker succeeded on a buildable plan, `error` otherwise — as the last
substantive frame before the sentinel, never both terminals; and the
end-of-stream sentinel frame is emitted exactly once, last, on every exit
path of the recorder (also when an exception escapes the engine generator). -/
theorem c1_terminal_event_and_sentinel (plan : CrewPlan)
    (goal sid created : String) (s e : Int) (sched : List RunAction)
    (o : WorkerOutcome) (evs : List ExecutionEvent) (esc : Option String) :
    (∃ (pre : List ExecutionEvent) (t : ExecutionEvent),
        (runWorkshop plan goal sid created s e sched o).frames
        = pre.map Frame.data ++ [Frame.data t, Frame.done]
      ∧ pre.all (fun ev => !isTerminal ev) = true
      ∧ isTerminal t = true
      ∧ t.type = expectedTerminal plan o)
    ∧ (streamWorkshopEvents plan goal sid created evs esc).frames.getLast?
        = some Frame.done
    ∧ (streamWorkshopEvents plan goal sid created evs esc).frames.countP
        (fun f => decide (f = Frame.done)) = 1 := by
  refine ⟨?_, ?_, ?_⟩
  · obtain ⟨pre, t, he, hp, hterm, hty⟩ := executeCrew_terminal plan s e sched o
    refine ⟨pre, t, ?_, ?_, hterm, hty⟩
    · show (executeCrew plan s e sched o).1.map Frame.data ++ [Frame.done]
        = pre.map Frame.data ++ [Frame.data t, Frame.done]
      rw [he]
      simp
    · rw [List.all_eq_true]
      intro ev hev
      simp [hp ev hev]
  · cases esc with
    | none =>
      show (evs.map Frame.data ++ [Frame.done]).getLast? = some Frame.done
      exact List.getLast?_concat _
    | some m =>
      show (evs.map Frame.data ++ [Frame.errorData m, Frame.done]).getLast?
        = some Frame.done
      rw [show evs.map Frame.data ++ [Frame.errorData m, Frame.done]
        = (evs.map Frame.data ++ [Frame.errorData m]) ++ [Frame.done] by simp]
      exact List.getLast?_concat _
  · have hzero : (evs.map Frame.data).countP
        (fun f => decide (f = Frame.done)) = 0 := by
      rw [List.countP_eq_zero]
      intro f hf
      simp at hf
      obtain ⟨ev, _, hev⟩ := hf
      subst hev
      simp
    cases esc with
    | none =>
      show (evs.map Frame.data ++ [Frame.done]).countP
        (fun f => decide (f = Frame.done)) = 1
      rw [List.countP_append, hzero]
      rfl
    | some m =>
      show (evs.map Frame.data ++ [Frame.errorData m, Frame.done]).countP
        (fun f => decide (f = Frame.done)) = 1
      rw [List.countP_append, hzero]
      rfl

/-- C2 counterexample: with a plan whose first agent has an empty name, a
step notification reporting a different declared role makes the engine emit
only an `agent_start` — no `agent_complete` and no `handoff` — because the
recorded active-agent name `""` is falsy in the `step_callback` guard; the
run's event types are two consecutive `agent_start`s followed by the final
`agent_complete` and `crew_complete`, contradicting the claimed
complete/handoff/start sequence on every role change. -/
theorem c2_counterexample :
    ((executeCrew exPlanEmptyName 0 3 [RunAction.step 2 (some "RB")]
        (.success "r")).1.map (fun ev => ev.type))
      = [.agent_start, .agent_start, .agent_complete, .crew_complete] := by
  decide

/-- C2 (amended): whenever a step notification reports a declared role
mapping to an agent name different from the currently recorded active agent,
and the recorded name is nonempty with a recorded start time (the Python
truthiness guard), the engine publishes, in this exact consecutive order, an
`agent_complete` for the previous agent with `duration_seconds` computed from
its recorded start time, a `handoff` from the previous to the new agent, and
an `agent_start` for the new agent; a handoff is published only on a change
to a different recorded agent (never on re-entry); and in every run in which
no event was dropped on a full channel, every delivered handoff lies strictly
between an `agent_complete` and the next `agent_start` and is never the
first or last event. -/
theorem c2_amended_handoff_protocol
    (rm rm2 : List (String × String)) (st st2 : CbState) (now now2 t0 : Int)
    (r n prev : String) (role2 : Option String)
    (plan : CrewPlan) (s e : Int) (sched : List RunAction) (o : WorkerOutcome)
    (h1 : r ≠ "") (h2 : dictGet rm r = some n)
    (h3 : st.currentAgent = some prev) (h4 : n ≠ prev) (h5 : prev ≠ "")
    (h6 : dictGet st.startTimes prev = some t0)
    (hd : (executeCrew plan s e sched o).2.droppedCount = 0) :
    (stepPublished rm st now (some r)).1
      = [agentCompleteEvent now prev (now - t0), handoffEvent now prev n,
         agentStartEvent now n]
    ∧ ((stepPublished rm2 st2 now2 role2).1.any
          (fun ev => decide (ev.type = .handoff)) = true →
        ∃ r2 n2 prev2, role2 = some r2 ∧ dictGet rm2 r2 = some n2
          ∧ st2.currentAgent = some prev2 ∧ n2 ≠ prev2)
    ∧ handoffPlaced (executeCrew plan s e sched o).1 = true := by
  refine ⟨?_, ?_, ?_⟩
  · exact congrArg Prod.fst
      (stepPublished_change rm st now t0 r n prev h1 h2 h3 h4 h5 h6)
  · exact stepPublished_handoff_only rm2 st2 now2 role2
  · exact executeCrew_handoffPlaced plan s e sched o hd

/-- C2 witness: the amended theorem applied at a concrete two-agent run with
one role change and no dropped events. -/
theorem c2_witness :
    (stepPublished [("RA", "A"), ("RB", "B")]
        { currentAgent := some "A", startTimes := [("A", 0)], notes := [] }
        5 (some "RB")).1
      = [agentCompleteEvent 5 "A" (5 - 0), handoffEvent 5 "A" "B",
         agentStartEvent 5 "B"]
    ∧ handoffPlaced (executeCrew exPlanTwo 0 3
        [exCalcAct, RunAction.step 2 (some "RB")] (.success "done")).1
      = true := by
  have h := c2_amended_handoff_protocol
    [("RA", "A"), ("RB", "B")] [("RA", "A"), ("RB", "B")]
    { currentAgent := some "A", startTimes := [("A", 0)], notes := [] }
    { currentAgent := some "A", startTimes := [("A", 0)], notes := [] }
    5 5 0 "RB" "B" "A" (some "RB") exPlanTwo 0 3
    [exCalcAct, RunAction.step 2 (some "RB")] (.success "done")
    (by decide) (by decide) (by decide) (by decide) (by decide) (by decide)
    (by decide)
  exact ⟨h.1, h.2.2⟩

/-- C3: a run that ends with a `crew_complete` event (worker success on a
buildable plan) carries, in that event's metadata, `total_tool_calls` equal
to the number of `tool_call` events delivered earlier in the same run,
`execution_time_seconds` equal to the total elapsed time, and `agents_used`
equal to the number of agents in the plan, and its content is the full final
textual result. -/
theorem c3_crew_complete_metadata (plan : CrewPlan) (s e : Int)
    (sched : List RunAction) (res : String) (hb : buildOk plan = true) :
    ∃ pre t, (executeCrew plan s e sched (.success res)).1 = pre ++ [t]
      ∧ t.type = .crew_complete
      ∧ t.metadata.total_tool_calls = some (countTc pre)
      ∧ t.metadata.execution_time_seconds = some (e - s)
      ∧ t.metadata.agents_used = some plan.agents.length
      ∧ t.content = res
      ∧ pre.all (fun ev => !isTerminal ev) = true := by
  obtain ⟨pre, he, hp⟩ := executeCrew_success_event plan s e sched res hb
  refine ⟨pre, _, he, rfl, rfl, rfl, rfl, rfl, ?_⟩
  rw [List.all_eq_true]
  intro ev hev
  simp [hp ev hev]

/-- C3 witness: the theorem applied to a one-agent run with one calculator
invocation. -/
theorem c3_witness :
    ∃ pre t, (executeCrew exPlanSolo 0 3 [exCalcAct] (.success "done")).1
        = pre ++ [t]
      ∧ t.type = .crew_complete
      ∧ t.metadata.total_tool_calls = some (countTc pre)
      ∧ t.metadata.execution_time_seconds = some ((3 : Int) - 0)
      ∧ t.metadata.agents_used = some exPlanSolo.agents.length
      ∧ t.content = "done"
      ∧ pre.all (fun ev => !isTerminal ev) = true :=
  c3_crew_complete_metadata exPlanSolo 0 3 [exCalcAct] "done" (by decide)

/-- C4 counterexample: the calculator publishes its `tool_result` content
untruncated (`content=result` in the source), so when the external `eval`
returns a 501-character string the published `tool_result` content has 501
characters, contradicting the claimed 500-character bound for every
registered tool. -/
theorem c4_counterexample :
    ((calculatorRun 0 "10 ** 2000" (.value exLongStr)).1.getLast?.map
        (fun ev => (ev.type, ev.content.length)))
      = some (.tool_result, 501) := by
  set_option maxRecDepth 4000 in decide

/-- C4 (amended): every registered tool publishes a `tool_call` event first
and then exactly one `tool_result` event, and returns the full untruncated
result to the caller; the `tool_result` preview is the result truncated to at
most 500 characters for the web search and the text analyzer and at most 300
for the note store, while the calculator publishes its result untruncated. -/
theorem c4_amended_tool_events (now : Int)
    (q expr act k c txt ty : String) (so : SearchOutcome) (eo ao : ExtOutcome)
    (notes : List (String × String)) :
    ((webSearchRun now q so).1.map (fun ev => ev.type)
        = [.tool_call, .tool_result])
    ∧ ((webSearchRun now q so).1.getLast?.map (fun ev => ev.content))
        = some (pyTrunc (webSearchRun now q so).2 500)
    ∧ (pyTrunc (webSearchRun now q so).2 500).length ≤ 500
    ∧ ((calculatorRun now expr eo).1.map (fun ev => ev.type)
        = [.tool_call, .tool_result])
    ∧ ((calculatorRun now expr eo).1.getLast?.map (fun ev => ev.content))
        = some (calculatorRun now expr eo).2
    ∧ ((noteTakerRun now act k c notes).1.map (fun ev => ev.type)
        = [.tool_call, .tool_result])
    ∧ ((noteTakerRun now act k c notes).1.getLast?.map (fun ev => ev.content))
        = some (pyTrunc (noteTakerRun now act k c notes).2.1 300)
    ∧ (pyTrunc (noteTakerRun now act k c notes).2.1 300).length ≤ 300
    ∧ ((textAnalyzerRun now txt ty ao).1.map (fun ev => ev.type)
        = [.tool_call, .tool_result])
    ∧ ((textAnalyzerRun now txt ty ao).1.getLast?.map (fun ev => ev.content))
        = some (pyTrunc (textAnalyzerRun now txt ty ao).2 500)
    ∧ (pyTrunc (textAnalyzerRun now txt ty ao).2 500).length ≤ 500 :=
  ⟨rfl, rfl, pyTrunc_length_le _ _, rfl, rfl, rfl, rfl,
   pyTrunc_length_le _ _, rfl, rfl, pyTrunc_length_le _ _⟩

/-- C5: no registered tool raises out of its run function: when the external
work raises, each tool still returns a result string beginning with its error
marker, still publishes its `tool_call`/`tool_result` pair, and a run whose
schedule contains any tool invocation still ends with `crew_complete` when
the worker succeeds — a tool failure never aborts the run.  (The note store
performs no external call and has no failure path at all.) -/
theorem c5_tools_never_raise (now s e : Int) (q expr txt ty msg res : String)
    (plan : CrewPlan) (sched1 sched2 : List RunAction) (inv : ToolInvocation)
    (hb : buildOk plan = true) :
    (webSearchRun now q (.raises msg)).2 = "Search error: " ++ msg
    ∧ ((webSearchRun now q (.raises msg)).1.map (fun ev => ev.type))
        = [.tool_call, .tool_result]
    ∧ (calculatorRun now expr (.raises msg)).2 = "Calculation error: " ++ msg
    ∧ ((calculatorRun now expr (.raises msg)).1.map (fun ev => ev.type))
        = [.tool_call, .tool_result]
    ∧ (textAnalyzerRun now txt ty (.raises msg)).2 = "Analysis error: " ++ msg
    ∧ ((textAnalyzerRun now txt ty (.raises msg)).1.map (fun ev => ev.type))
        = [.tool_call, .tool_result]
    ∧ ((executeCrew plan s e (sched1 ++ RunAction.tool now inv :: sched2)
          (.success res)).1.getLast?.map (fun ev => ev.type))
        = some .crew_complete := by
  refine ⟨rfl, rfl, rfl, rfl, rfl, rfl, ?_⟩
  obtain ⟨pre, he, _⟩ := executeCrew_success_event plan s e
    (sched1 ++ RunAction.tool now inv :: sched2) res hb
  rw [he, List.getLast?_concat]
  rfl

/-- C5 witness: the theorem applied at a one-agent run whose schedule holds a
web-search invocation that raised. -/
theorem c5_witness :
    (webSearchRun 1 "q" (.raises "boom")).2 = "Search error: " ++ "boom"
    ∧ ((executeCrew exPlanSolo 0 3 ([] ++ exFailSearchAct :: [])
          (.success "done")).1.getLast?.map (fun ev => ev.type))
        = some .crew_complete := by
  have h := c5_tools_never_raise 1 0 3 "q" "1+1" "t" "general" "boom" "done"
    exPlanSolo [] [] (.webSearch "q" (.raises "boom")) (by decide)
  exact ⟨h.1, h.2.2.2.2.2.2⟩

/-- C6 counterexample: a plan-synthesis output that parses as JSON but holds
no agents and no tasks (e.g. the LLM returned `{}`) does not trigger the
fallback: `plan_crew` returns a plan with zero agents and zero tasks instead
of the two-agent fallback plan. -/
theorem c6_counterexample :
    plan_crew "g" (fun n => toString n) (.parsed none [] [])
      = .ok { agents := [], tasks := [], execution_order := "sequential",
              summary := "A crew of 0 agents to: g" } := by
  rfl

/-- C6 (amended): when the plan-synthesis output is unparseable (no JSON
object found, or JSON decoding failed), `plan_crew` returns the deterministic
fallback plan with exactly 2 agents (Researcher and Writer) and exactly 2
tasks, each task's `agent_id` resolving to one of the 2 agents; a parseable
but agent-less output instead yields a zero-agent plan, and it is the execute
endpoint's validation (at least one agent and one task) — not `plan_crew` —
that keeps such a plan from the execution engine. -/
theorem c6_amended_fallback (goal : String) (idGen : Nat → String)
    (o : PlanSynthOutcome) (p : CrewPlan)
    (ho : o = .noJson ∨ o = .badJson) (hv : validateExecute p = true) :
    plan_crew goal idGen o
      = .ok (fallbackPlan goal (idGen 0) (idGen 1) (idGen 2) (idGen 3))
    ∧ (fallbackPlan goal (idGen 0) (idGen 1) (idGen 2) (idGen 3)).agents.length
        = 2
    ∧ (fallbackPlan goal (idGen 0) (idGen 1) (idGen 2) (idGen 3)).tasks.length
        = 2
    ∧ ((fallbackPlan goal (idGen 0) (idGen 1) (idGen 2) (idGen 3)).tasks.all
        (fun t =>
          (fallbackPlan goal (idGen 0) (idGen 1) (idGen 2) (idGen 3)).agents.any
            (fun a => decide (a.id = t.agent_id)))) = true
    ∧ p.agents ≠ [] ∧ p.tasks ≠ [] := by
  refine ⟨?_, rfl, rfl, ?_, ?_, ?_⟩
  · rcases ho with h | h <;> subst h <;> rfl
  · simp [fallbackPlan, fallbackResearcher, fallbackWriter]
  · have h := hv
    unfold validateExecute at h
    simp at h
    exact h.1
  · have h := hv
    unfold validateExecute at h
    simp at h
    exact h.2

/-- C6 witness: the amended theorem applied to an unparseable synthesis
outcome and a concrete valid plan. -/
theorem c6_witness :
    plan_crew "g" (fun n => toString n) .noJson
      = .ok (fallbackPlan "g" (toString 0) (toString 1) (toString 2)
          (toString 3))
    ∧ exPlanSolo.agents ≠ [] := by
  have h := c6_amended_fallback "g" (fun n => toString n) .noJson exPlanSolo
    (Or.inl rfl) (by decide)
  exact ⟨h.1, h.2.2.2.2.1⟩

/-- C7: publishing onto the event channel never blocks and never raises (it
is a total function on the bridge state): the capacity is fixed at 500; a
publish onto a queue below capacity appends the event, a publish onto a full
queue leaves the queue unchanged and drops the newest event (counted as the
logged warning); the queue length never exceeds the capacity after any prefix
of a run's schedule; and a run whose worker succeeds on a buildable plan
still ends with `crew_complete` whatever was dropped. -/
theorem c7_channel_bounded (st : EngineState) (ev : ExecutionEvent)
    (plan : CrewPlan) (s e : Int) (pre sched : List RunAction) (res : String) :
    QUEUE_CAPACITY = 500
    ∧ (st.queue.length < QUEUE_CAPACITY →
        emitSync st ev = { st with queue := st.queue ++ [ev] })
    ∧ (st.queue.length ≤ QUEUE_CAPACITY →
        (emitSync st ev).queue.length ≤ QUEUE_CAPACITY)
    ∧ (QUEUE_CAPACITY ≤ st.queue.length →
        (emitSync st ev).queue = st.queue
        ∧ (emitSync st ev).droppedCount = st.droppedCount + 1)
    ∧ (runSched (roleToName plan) { cb := (initStart plan s).2 } pre).queue.length
        ≤ QUEUE_CAPACITY
    ∧ (buildOk plan = true →
        ((executeCrew plan s e sched (.success res)).1.getLast?.map
          (fun t => t.type)) = some .crew_complete) := by
  refine ⟨rfl, ?_, ?_, ?_, ?_, ?_⟩
  · intro hlt
    unfold emitSync
    simp [hlt]
  · intro hle
    unfold emitSync
    split
    · next hlt => simp only [List.length_append, List.length_singleton]; omega
    · exact hle
  · intro hge
    have hnlt : ¬ st.queue.length < QUEUE_CAPACITY := by omega
    unfold emitSync
    simp [hnlt]
  · exact runSched_queue_le (roleToName plan) pre
      { cb := (initStart plan s).2 } (Nat.zero_le _)
  · intro hb
    obtain ⟨p2, he, _⟩ := executeCrew_success_event plan s e sched res hb
    rw [he, List.getLast?_concat]
    rfl

/-- C7 witness: the bound, drop and completion facts at a concrete full
queue, a concrete schedule prefix and a concrete successful run. -/
theorem c7_witness :
    (emitSync { queue := List.replicate 500 (agentStartEvent 0 "A") }
        (agentStartEvent 1 "B")).queue
      = List.replicate 500 (agentStartEvent 0 "A")
    ∧ ((executeCrew exPlanSolo 0 3 [exCalcAct] (.success "done")).1.getLast?.map
        (fun t => t.type)) = some .crew_complete := by
  have h := c7_channel_bounded
    { queue := List.replicate 500 (agentStartEvent 0 "A") }
    (agentStartEvent 1 "B") exPlanSolo 0 3 [] [exCalcAct] "done"
  refine ⟨(h.2.2.2.1 ?_).1, h.2.2.2.2.2 (by decide)⟩
  show QUEUE_CAPACITY ≤ (List.replicate 500 (agentStartEvent 0 "A")).length
  rw [List.length_replicate]
  exact Nat.le_refl _

/-- C8: `save_session` preserves the session-store invariant: on a stored
list within the cap, a session whose id already occurs is replaced at its
existing (first) position without changing the list length; a new session is
inserted at the front; after every save at most `MAX_SESSIONS` sessions
remain; and `get_session` finds the just-saved session by its id. -/
theorem c8_session_store (stored : List WorkshopSession)
    (s : WorkshopSession) (i : Nat) (hlen : stored.length ≤ MAX_SESSIONS) :
    (pyNextIndex (fun u => decide (u.id = s.id)) stored = some i →
      save_session stored s = stored.set i s
      ∧ (save_session stored s).length = stored.length)
    ∧ (pyNextIndex (fun u => decide (u.id = s.id)) stored = none →
      (save_session stored s).head? = some s
      ∧ (save_session stored s).length = min (stored.length + 1) MAX_SESSIONS)
    ∧ (∀ (stored2 : List WorkshopSession) (s2 : WorkshopSession),
        (save_session stored2 s2).length ≤ MAX_SESSIONS)
    ∧ get_session (save_session stored s) s.id = some s := by
  have hcap : ∀ (stored2 : List WorkshopSession) (s2 : WorkshopSession),
      (save_session stored2 s2).length ≤ MAX_SESSIONS := by
    intro stored2 s2
    unfold save_session
    split <;> rw [List.length_take] <;> exact Nat.min_le_left _ _
  refine ⟨?_, ?_, hcap, ?_⟩
  · intro h
    have hle : (stored.set i s).length ≤ MAX_SESSIONS := by
      rw [List.length_set]; exact hlen
    have hset : save_session stored s = stored.set i s := by
      unfold save_session
      rw [h]
      show (stored.set i s).take MAX_SESSIONS = stored.set i s
      exact List.take_of_length_le hle
    exact ⟨hset, by rw [hset, List.length_set]⟩
  · intro h
    have hsave : save_session stored s = (s :: stored).take MAX_SESSIONS := by
      unfold save_session
      rw [h]
    constructor
    · rw [hsave, show MAX_SESSIONS = 49 + 1 from rfl, List.take_succ_cons]
      rfl
    · rw [hsave, List.length_take, List.length_cons, Nat.min_comm]
  · cases h : pyNextIndex (fun u => decide (u.id = s.id)) stored with
    | some j =>
      have hle : (stored.set j s).length ≤ MAX_SESSIONS := by
        rw [List.length_set]; exact hlen
      have hset : save_session stored s = stored.set j s := by
        unfold save_session
        rw [h]
        show (stored.set j s).take MAX_SESSIONS = stored.set j s
        exact List.take_of_length_le hle
      rw [hset]
      unfold get_session
      exact pyNextIndex_set_find _ stored j s (by simp) h
    | none =>
      have hsave : save_session stored s = (s :: stored).take MAX_SESSIONS := by
        unfold save_session
        rw [h]
      rw [hsave, show MAX_SESSIONS = 49 + 1 from rfl, List.take_succ_cons]
      unfold get_session
      rw [List.find?_cons_of_pos _ (by simp)]

/-- C8 witness: the save/get behavior at a concrete two-session store, both
for a replacing save and for a fresh insert. -/
theorem c8_witness :
    save_session
        [{ id := "s1", goal := "g1" }, { id := "s2", goal := "g2" }]
        { id := "s2", goal := "g2b" }
      = [{ id := "s1", goal := "g1" }, { id := "s2", goal := "g2b" }]
    ∧ get_session
        (save_session
          [{ id := "s1", goal := "g1" }, { id := "s2", goal := "g2" }]
          { id := "s3", goal := "g3" }) "s3"
      = some { id := "s3", goal := "g3" } := by
  have h1 := c8_session_store
    [{ id := "s1", goal := "g1" }, { id := "s2", goal := "g2" }]
    { id := "s2", goal := "g2b" } 1 (by decide)
  have h2 := c8_session_store
    [{ id := "s1", goal := "g1" }, { id := "s2", goal := "g2" }]
    { id := "s3", goal := "g3" } 0 (by decide)
  exact ⟨(h1.1 (by decide)).1, h2.2.2.2⟩

/-- C9: when the engine converts an internal failure into an `error` event
(no exception escapes the `execute_crew` generator), the recorder persists
the session as a normal completion — status `complete` with an empty result
string — both for a worker failure and for a construction failure; the
recorder sets status `error` exactly when an exception escapes the engine
generator into it. -/
theorem c9_internal_error_session_complete (plan : CrewPlan)
    (goal sid created : String) (s e : Int) (sched : List RunAction)
    (msg : String) (evs : List ExecutionEvent) (esc : Option String) :
    (runWorkshop plan goal sid created s e sched (.failure msg)).session.status
        = .complete
    ∧ (runWorkshop plan goal sid created s e sched (.failure msg)).session.result
        = ""
    ∧ (runWorkshop plan goal sid created s e sched
        (.buildFailure msg)).session.status = .complete
    ∧ (runWorkshop plan goal sid created s e sched
        (.buildFailure msg)).session.result = ""
    ∧ (streamWorkshopEvents plan goal sid created evs esc).session.status
        = (if esc.isSome then SessionStatus.error else SessionStatus.complete) := by
  refine ⟨rfl, ?_, rfl, ?_, ?_⟩
  · show ((executeCrew plan s e sched (.failure msg)).1.foldl
      captureCrewComplete ("", 0, 0)).1 = ""
    rw [executeCrew_no_crew_capture plan s e sched (.failure msg) rfl]
  · show ((executeCrew plan s e sched (.buildFailure msg)).1.foldl
      captureCrewComplete ("", 0, 0)).1 = ""
    rw [executeCrew_no_crew_capture plan s e sched (.buildFailure msg) rfl]
  · cases esc <;> rfl

/-- C10: a task whose `agent_id` matches no agent of the plan is silently
reassigned by the engine to the plan's first agent; the execute endpoint
accepts a plan with such a dangling reference (it checks only non-emptiness),
while only the plan-edit endpoint enforces the reference invariant, accepting
a plan exactly when it is non-empty and every task's `agent_id` resolves. -/
theorem c10_dangling_task_reassigned (plan : CrewPlan) (t : TaskDefinition)
    (a0 : AgentDefinition) (rest : List AgentDefinition) (p : CrewPlan)
    (h1 : plan.agents = a0 :: rest)
    (h2 : plan.agents.any (fun a => decide (a.id = t.agent_id)) = false) :
    resolveTaskAgentId plan t = a0.id
    ∧ validateExecute exPlanDangling = true
    ∧ editPlanCheck exPlanDangling
        = .error "Task references unknown agent_id: ghost"
    ∧ (editPlanCheck p = .ok p ↔
        (p.agents ≠ [] ∧ p.tasks ≠ []
          ∧ p.tasks.all (fun tk =>
              p.agents.any (fun a => decide (a.id = tk.agent_id))) = true)) := by
  refine ⟨?_, by decide, by rfl, ?_, ?_⟩
  · unfold resolveTaskAgentId
    rw [h2, h1]
    simp
  · intro hok
    by_cases hA : p.agents.isEmpty
    · unfold editPlanCheck at hok
      simp [hA] at hok
    · have hA' : p.agents.isEmpty = false := by
        revert hA; cases p.agents.isEmpty <;> simp
      by_cases hT : p.tasks.isEmpty
      · unfold editPlanCheck at hok
        simp [hA', hT] at hok
      · have hT' : p.tasks.isEmpty = false := by
          revert hT; cases p.tasks.isEmpty <;> simp
        unfold editPlanCheck at hok
        simp only [hA', hT', Bool.false_eq_true, if_false] at hok
        cases hf : p.tasks.find?
            (fun tk => !p.agents.any (fun a => decide (a.id = tk.agent_id))) with
        | some tk => rw [hf] at hok; simp at hok
        | none =>
          refine ⟨by simpa [List.isEmpty_iff] using hA',
            by simpa [List.isEmpty_iff] using hT', ?_⟩
          rw [List.all_eq_true]
          intro tk htk
          have hft := List.find?_eq_none.mp hf tk htk
          simpa using hft
  · rintro ⟨hA, hT, hall⟩
    have hA' : p.agents.isEmpty = false := by
      simpa [List.isEmpty_iff] using hA
    have hT' : p.tasks.isEmpty = false := by
      simpa [List.isEmpty_iff] using hT
    unfold editPlanCheck
    simp only [hA', hT', Bool.false_eq_true, if_false]
    cases hf : p.tasks.find?
        (fun tk => !p.agents.any (fun a => decide (a.id = tk.agent_id))) with
    | some tk =>
      exfalso
      have hp := List.find?_some hf
      have hm := List.mem_of_find?_eq_some hf
      rw [List.all_eq_true] at hall
      have hmem := hall tk hm
      rw [hmem] at hp
      simp at hp
    | none => rfl

/-- C10 witness: the theorem applied at the concrete dangling plan and a
concrete well-formed plan. -/
theorem c10_witness :
    resolveTaskAgentId exPlanDangling
        { id := "t1", description := "d", agent_id := "ghost",
          expected_output := "o", order := 0 }
      = "a1"
    ∧ (editPlanCheck exPlanSolo = .ok exPlanSolo ↔
        (exPlanSolo.agents ≠ [] ∧ exPlanSolo.tasks ≠ []
          ∧ exPlanSolo.tasks.all (fun tk =>
              exPlanSolo.agents.any (fun a => decide (a.id = tk.agent_id)))
            = true)) := by
  have h := c10_dangling_task_reassigned exPlanDangling
    { id := "t1", description := "d", agent_id := "ghost",
      expected_output := "o", order := 0 }
    { id := "a1", name := "A", role := "RA", goal := "g", backstory := "b",
      tools := [], order := 0 }
    [] exPlanSolo rfl (by decide)
  exact ⟨h.1, h.2.2.2⟩

end AgentWorkshop
